import Mathlib

/-!
Verification of the snake simulation engine (`src/game_engine.rs`,
`src/heuristic_bot.rs`) against its natural-language specification.

Shallow embedding conventions:
* Rust `i32` values are modelled as `Int` (board positions stay far from the
  `i32` range, so wrap-around never matters); `u32`/`usize` counters as `Nat`.
* The board's fixed `[Cell; W*H]` array is modelled as a total function
  `Int → Cell` together with the bounds checks the Rust code performs at each
  access; a Rust panic (array index out of bounds, failed `assert!`, `expect`)
  is modelled by returning `none` from an `Option`-valued function.
* Randomness (obstacle draws, placement draws, food draws) is modelled by
  passing the drawn values as explicit parameters; the reachability relation
  `Reachable` constrains them exactly to the ranges `rand::gen_range` produces.
* The heuristic's `f64` statistics are sums of small integers (exact in f64),
  modelled as `Int`; the final normalisation divisions are modelled in `ℚ`.
-/

namespace GeneticSnake

/-- `Cell` from `game_engine.rs`: the tagged value stored in each grid index.
`Wall` is the out-of-bounds sentinel. Snake ids (`u32`) are modelled as `Nat`. -/
inductive Cell where
  | Empty : Cell
  | Food : Cell
  | Obstacle : Cell
  | Wall : Cell
  | SnakeHead : Nat → Cell
  | SnakeBody : Nat → Cell
  | SnakeTail : Nat → Cell
  deriving DecidableEq, Repr

/-- `BOARD_WIDTH` from `game_engine.rs`. -/
def BOARD_WIDTH : Int := 32

/-- `BOARD_HEIGHT` from `game_engine.rs`. -/
def BOARD_HEIGHT : Int := 16

/-- `Coordinate` from `game_engine.rs`: an `(x, y)` pair of `i32`. -/
structure Coordinate where
  x : Int
  y : Int
  deriving DecidableEq, Repr

/-- `Coordinate::to_pos`: `x + y * BOARD_WIDTH` (unchecked). -/
def Coordinate.to_pos (c : Coordinate) : Int :=
  c.x + c.y * BOARD_WIDTH

/-- `Coordinate::from_pos`: `(position % BOARD_WIDTH, position / BOARD_WIDTH)`.
Rust's `%` and `/` on `i32` truncate toward zero, hence `tmod`/`tdiv`. -/
def Coordinate.from_pos (position : Int) : Coordinate :=
  ⟨position.tmod BOARD_WIDTH, position.tdiv BOARD_WIDTH⟩

/-- `Coordinate::is_out_of_bounds`. -/
def Coordinate.is_out_of_bounds (c : Coordinate) : Prop :=
  c.x < 0 ∨ BOARD_WIDTH ≤ c.x ∨ c.y < 0 ∨ BOARD_HEIGHT ≤ c.y

instance (c : Coordinate) : Decidable c.is_out_of_bounds := by
  unfold Coordinate.is_out_of_bounds; infer_instance

/-- `Action` from `game_engine.rs`. -/
inductive Action where
  | Left : Action
  | Front : Action
  | Right : Action
  deriving DecidableEq, Repr

/-- `Orientation` from `game_engine.rs`. -/
inductive Orientation where
  | North : Orientation
  | East : Orientation
  | South : Orientation
  | West : Orientation
  deriving DecidableEq, Repr

/-- `next_orientation` from `game_engine.rs`: the fixed 4×3 rotation table. -/
def next_orientation (current_orientation : Orientation) (action : Action) : Orientation :=
  match current_orientation with
  | Orientation.North =>
      match action with
      | Action.Left => Orientation.West
      | Action.Front => Orientation.North
      | Action.Right => Orientation.East
  | Orientation.East =>
      match action with
      | Action.Left => Orientation.North
      | Action.Front => Orientation.East
      | Action.Right => Orientation.South
  | Orientation.South =>
      match action with
      | Action.Left => Orientation.East
      | Action.Front => Orientation.South
      | Action.Right => Orientation.West
  | Orientation.West =>
      match action with
      | Action.Left => Orientation.South
      | Action.Front => Orientation.West
      | Action.Right => Orientation.North

/-- `next_coord_towards` from `game_engine.rs`: `none` when the move would
leave the board (checked against the current coordinate), otherwise the
neighbouring coordinate one step in the given orientation. -/
def next_coord_towards (from_c : Coordinate) (orientation : Orientation) : Option Coordinate :=
  if (orientation = Orientation.West ∧ from_c.x = 0) ∨
     (orientation = Orientation.East ∧ from_c.x = BOARD_WIDTH - 1) ∨
     (orientation = Orientation.North ∧ from_c.y = 0) ∨
     (orientation = Orientation.South ∧ from_c.y = BOARD_HEIGHT - 1) then
    none
  else
    some (match orientation with
      | Orientation.North => ⟨from_c.x, from_c.y - 1⟩
      | Orientation.East => ⟨from_c.x + 1, from_c.y⟩
      | Orientation.South => ⟨from_c.x, from_c.y + 1⟩
      | Orientation.West => ⟨from_c.x - 1, from_c.y⟩)

/-- `GameBoard` from `game_engine.rs`. The `[Cell; W*H]` array is modelled as
a total function on `Int`; every Rust access goes through the bounds checks
reproduced in `get_tile_at_pos`/`set_tile_at_pos` below. The `rng` and
`food_add_probability` fields drive randomness only and are replaced by the
explicit draw parameters of `GameBoard.update`. -/
structure GameBoard where
  nb_free_cells : Int
  nb_alive_snakes : Nat
  cells : Int → Cell

/-- `GameBoard::new` (the cell array initialisation): all cells `Empty`. -/
def GameBoard.new : GameBoard :=
  { nb_free_cells := BOARD_WIDTH * BOARD_HEIGHT
    nb_alive_snakes := 0
    cells := fun _ => Cell.Empty }

/-- `GameBoard::get_tile_at_pos`: `self.cells[*pos as usize]`. A negative or
too-large position makes the Rust array index panic (`pos as usize` wraps a
negative `i32` to a huge `usize`), modelled as `none`. -/
def GameBoard.get_tile_at_pos (b : GameBoard) (pos : Int) : Option Cell :=
  if 0 ≤ pos ∧ pos < BOARD_WIDTH * BOARD_HEIGHT then some (b.cells pos) else none

/-- `GameBoard::get_tile_at_coord`: out-of-bounds coordinates are answered
with the `Wall` sentinel, in-bounds coordinates read the stored cell. -/
def GameBoard.get_tile_at_coord (b : GameBoard) (coord : Coordinate) : Option Cell :=
  if coord.is_out_of_bounds then some Cell.Wall
  else b.get_tile_at_pos coord.to_pos

/-- `GameBoard::set_tile_at_pos`: stores `cell` at `pos` when
`0 <= pos < W*H`, panics (modelled `none`) otherwise. -/
def GameBoard.set_tile_at_pos (b : GameBoard) (pos : Int) (cell : Cell) : Option GameBoard :=
  if 0 ≤ pos ∧ pos < BOARD_WIDTH * BOARD_HEIGHT then
    some { b with cells := fun q => if q = pos then cell else b.cells q }
  else none

/-- `GameBoard::is_pos_free_or_food`. -/
def GameBoard.is_pos_free_or_food (b : GameBoard) (pos : Int) : Option Bool :=
  (b.get_tile_at_pos pos).map fun t =>
    match t with
    | Cell.Empty => true
    | Cell.Food => true
    | _ => false

/-- `GameBoard::is_coord_free_or_food`. -/
def GameBoard.is_coord_free_or_food (b : GameBoard) (coord : Coordinate) : Option Bool :=
  (b.get_tile_at_coord coord).map fun t =>
    match t with
    | Cell.Empty => true
    | Cell.Food => true
    | _ => false

/-! Basic facts about the board primitives. -/

theorem set_tile_at_pos_eq_some {b : GameBoard} {pos : Int} {cell : Cell} {b' : GameBoard}
    (h : b.set_tile_at_pos pos cell = some b') :
    b'.cells pos = cell ∧ (∀ q, q ≠ pos → b'.cells q = b.cells q) ∧
      b'.nb_free_cells = b.nb_free_cells ∧ b'.nb_alive_snakes = b.nb_alive_snakes := by
  unfold GameBoard.set_tile_at_pos at h
  split at h
  · cases h
    refine ⟨by simp, fun q hq => by simp [hq], rfl, rfl⟩
  · cases h

theorem set_tile_at_pos_isSome_iff {b : GameBoard} {pos : Int} {cell : Cell} :
    (b.set_tile_at_pos pos cell).isSome = true ↔
      (0 ≤ pos ∧ pos < BOARD_WIDTH * BOARD_HEIGHT) := by
  unfold GameBoard.set_tile_at_pos
  split <;> simp_all

/-- An in-bounds coordinate converts to an in-bounds linear position. -/
theorem to_pos_in_bounds {c : Coordinate} (h : ¬ c.is_out_of_bounds) :
    0 ≤ c.to_pos ∧ c.to_pos < BOARD_WIDTH * BOARD_HEIGHT := by
  unfold Coordinate.is_out_of_bounds at h
  push_neg at h
  obtain ⟨h1, h2, h3, h4⟩ := h
  unfold Coordinate.to_pos BOARD_WIDTH BOARD_HEIGHT at *
  constructor <;> nlinarith

/-! ### Claim C10: `next_orientation` is a group action on the four compass
directions. -/

/-- C10: for every orientation `O`, turning Left then Right returns `O`,
turning Right then Left returns `O`, and `Front` leaves `O` unchanged — the
rotation table acts invertibly on the 4 compass directions. -/
theorem c10_next_orientation_group_action :
    ∀ o : Orientation,
      next_orientation (next_orientation o Action.Left) Action.Right = o ∧
      next_orientation (next_orientation o Action.Right) Action.Left = o ∧
      next_orientation o Action.Front = o := by
  intro o
  cases o <;> exact ⟨rfl, rfl, rfl⟩

/-! ### Claim C9: `set_tile_at_pos` panics exactly on out-of-bounds positions
and otherwise performs a single-cell store. -/

/-- C9: `set_tile_at_pos` fails fatally (panics, modelled as `none`) iff the
position is below 0 or at/above `W*H`; for an in-bounds position it stores the
cell at exactly that index and leaves every other cell unchanged. -/
theorem c9_set_tile_at_pos_spec :
    ∀ (b : GameBoard) (pos : Int) (cell : Cell),
      ((b.set_tile_at_pos pos cell = none ↔
         (pos < 0 ∨ BOARD_WIDTH * BOARD_HEIGHT ≤ pos)) ∧
       (∀ b', b.set_tile_at_pos pos cell = some b' →
         b'.cells pos = cell ∧ ∀ q, q ≠ pos → b'.cells q = b.cells q)) := by
  intro b pos cell
  constructor
  · unfold GameBoard.set_tile_at_pos
    split <;> rename_i hin
    · constructor
      · intro hcon
        exact Option.noConfusion hcon
      · intro hcon
        exact absurd hin (by omega)
    · constructor
      · intro _
        by_contra hcon
        push_neg at hcon
        exact hin ⟨by omega, by omega⟩
      · intro _
        rfl
  · intro b' h
    exact ⟨(set_tile_at_pos_eq_some h).1, (set_tile_at_pos_eq_some h).2.1⟩

/-- Witness for C9 at a concrete input: storing `Food` at position 7 of the
fresh board succeeds, reads back `Food` at 7, and leaves position 8 `Empty`. -/
theorem c9_set_tile_at_pos_spec_witness :
    GameBoard.new.set_tile_at_pos (-3) Cell.Food = none ∧
      ∃ b', GameBoard.new.set_tile_at_pos 7 Cell.Food = some b' ∧
        b'.cells 7 = Cell.Food ∧ b'.cells 8 = Cell.Empty := by
  have h1 := (c9_set_tile_at_pos_spec GameBoard.new (-3) Cell.Food).1.mpr (by norm_num)
  refine ⟨h1, ?_⟩
  have hsome : GameBoard.new.set_tile_at_pos 7 Cell.Food =
      some { GameBoard.new with
               cells := fun q => if q = 7 then Cell.Food else GameBoard.new.cells q } := rfl
  refine ⟨_, hsome, ?_, ?_⟩
  · exact ((c9_set_tile_at_pos_spec GameBoard.new 7 Cell.Food).2 _ hsome).1
  · have h8 := ((c9_set_tile_at_pos_spec GameBoard.new 7 Cell.Food).2 _ hsome).2 8 (by norm_num)
    rw [h8]
    rfl

/-! ### Claim C3: totality of the tile lookups.

The claim asserts that both lookups are total. The coordinate lookup indeed
is (`Wall` sentinel for out-of-bounds, stored cell otherwise), but the
position lookup `get_tile_at_pos` indexes the cell array without a bounds
check and therefore panics on any out-of-bounds position (for a negative
`i32` position the `as usize` cast wraps to a huge index). -/

/-- The claim C3, stated as the spec asserts it: the coordinate lookup is
total with the `Wall` sentinel, and the position lookup returns the stored
cell for EVERY position with no failure case. -/
def ClaimC3 : Prop :=
  (∀ (b : GameBoard) (c : Coordinate),
     b.get_tile_at_coord c =
       some (if c.is_out_of_bounds then Cell.Wall else b.cells c.to_pos)) ∧
  (∀ (b : GameBoard) (p : Int), b.get_tile_at_pos p = some (b.cells p))

/-- C3 counterexample: the position lookup panics at position `-1` (the Rust
`(-1i32) as usize` wraps and the array index fails), so it is not total. -/
theorem c3_counterexample : ¬ ClaimC3 := by
  intro h
  have := h.2 GameBoard.new (-1)
  rw [show GameBoard.new.get_tile_at_pos (-1) = none from rfl] at this
  cases this

/-- C3 amended: the coordinate lookup is total — out-of-bounds coordinates
return `Wall` and in-bounds coordinates return the stored cell — while the
position lookup returns the stored cell exactly for in-bounds positions and
panics (no value) for out-of-bounds positions. -/
theorem c3_amended_tile_lookup :
    ∀ (b : GameBoard) (c : Coordinate) (p : Int),
      (c.is_out_of_bounds → b.get_tile_at_coord c = some Cell.Wall) ∧
      (¬ c.is_out_of_bounds → b.get_tile_at_coord c = some (b.cells c.to_pos)) ∧
      (0 ≤ p ∧ p < BOARD_WIDTH * BOARD_HEIGHT → b.get_tile_at_pos p = some (b.cells p)) ∧
      (¬ (0 ≤ p ∧ p < BOARD_WIDTH * BOARD_HEIGHT) → b.get_tile_at_pos p = none) := by
  intro b c p
  refine ⟨fun h => by simp [GameBoard.get_tile_at_coord, h], fun h => ?_, fun h => ?_, fun h => ?_⟩
  · have hin := to_pos_in_bounds h
    simp [GameBoard.get_tile_at_coord, h, GameBoard.get_tile_at_pos, hin.1, hin.2]
  · simp [GameBoard.get_tile_at_pos, h.1, h.2]
  · simp only [GameBoard.get_tile_at_pos, if_neg h]

/-- Witness for the amended C3 at concrete inputs: the coordinate `(-2, 5)`
reads `Wall`, the coordinate `(3, 1)` reads the stored cell at position 35,
position 35 reads the stored cell, and position 512 panics. -/
theorem c3_amended_tile_lookup_witness :
    GameBoard.new.get_tile_at_coord ⟨-2, 5⟩ = some Cell.Wall ∧
      GameBoard.new.get_tile_at_coord ⟨3, 1⟩ = some (GameBoard.new.cells 35) ∧
      GameBoard.new.get_tile_at_pos 35 = some (GameBoard.new.cells 35) ∧
      GameBoard.new.get_tile_at_pos 512 = none := by
  have h1 := c3_amended_tile_lookup GameBoard.new ⟨-2, 5⟩ 35
  have h2 := c3_amended_tile_lookup GameBoard.new ⟨3, 1⟩ 512
  refine ⟨h1.1 (by unfold Coordinate.is_out_of_bounds; norm_num), ?_, ?_, ?_⟩
  · have := h2.2.1 (by unfold Coordinate.is_out_of_bounds BOARD_WIDTH BOARD_HEIGHT; norm_num)
    simpa [Coordinate.to_pos, BOARD_WIDTH] using this
  · exact h1.2.2.1 (by unfold BOARD_WIDTH BOARD_HEIGHT; norm_num)
  · exact h2.2.2.2 (by unfold BOARD_WIDTH BOARD_HEIGHT; norm_num)

/-! ### Snakes and per-tick movement (`Snake::execute_action`). -/

/-- `SnakeState` from `game_engine.rs`. The `VecDeque<Position>` body (front =
head, back = tail) is a `List Int` whose head is the snake's head. -/
structure SnakeState where
  id : Nat
  positions : List Int
  current_orientation : Orientation
  alive : Bool
  deriving DecidableEq, Repr

/-- `Snake` from `game_engine.rs`. The boxed bot is external (actions are
passed explicitly to the step function), so only the data fields remain. -/
structure Snake where
  state : SnakeState
  just_died : Bool
  growth_state : Int
  deriving DecidableEq, Repr

/-- `Snake::GROWTH_RATE`. -/
def Snake.GROWTH_RATE : Int := 3

/-- `Snake::new`: fresh snake with empty body, `North` orientation, alive,
growth counter at `GROWTH_RATE`. -/
def Snake.new (id : Nat) : Snake :=
  { state := { id := id, positions := [], current_orientation := Orientation.North, alive := true }
    just_died := false
    growth_state := Snake.GROWTH_RATE }

/-- `Snake::execute_action` from `game_engine.rs`, lines 235-301.

On a dead snake the Rust code logs and returns without touching anything.
Otherwise it computes the next orientation and destination; an out-of-bounds
destination marks `just_died` and converts the current head to `SnakeBody`
only. An in-bounds move marks `just_died` when the destination is not
Empty/Food, and in every in-bounds case performs the full movement:
growth-counter decrement (with `assert!(growth_state > 0)`, modelled as
`none`), push of the new head position, current-head→Body write, tail pop and
clear when neither food nor growth applies, then unconditional Tail and Head
writes. A `none` result models a Rust panic. -/
def Snake.execute_action (s : Snake) (board : GameBoard) (action : Action) :
    Option (Snake × GameBoard) :=
  if s.state.alive = false then some (s, board) else
  match s.state.positions.head? with
  | none => none
  | some current_head_pos =>
    let next_or := next_orientation s.state.current_orientation action
    let current_head_coord := Coordinate.from_pos current_head_pos
    match next_coord_towards current_head_coord next_or with
    | none =>
        (board.set_tile_at_pos current_head_pos (Cell.SnakeBody s.state.id)).map
          (fun b => ({ s with just_died := true }, b))
    | some next_head_coord =>
      match board.is_coord_free_or_food next_head_coord with
      | none => none
      | some free =>
        let s1 := if free then s else { s with just_died := true }
        let next_head_pos := next_head_coord.to_pos
        match board.get_tile_at_pos next_head_pos with
        | none => none
        | some next_pos_type =>
          let food : Bool := next_pos_type = Cell.Food
          if s1.growth_state ≤ 0 then none else
          let growth1 := s1.growth_state - 1
          let growing : Bool := growth1 = 0
          let growth2 := if growing then Snake.GROWTH_RATE else growth1
          let positions1 := next_head_pos :: s1.state.positions
          match board.set_tile_at_pos current_head_pos (Cell.SnakeBody s1.state.id) with
          | none => none
          | some b1 =>
            let shrink : Option (List Int × GameBoard) :=
              if (food || growing) = false then
                match positions1.getLast? with
                | some tail_pos =>
                    (b1.set_tile_at_pos tail_pos Cell.Empty).map
                      (fun b => (positions1.dropLast, b))
                | none => some (positions1, b1)
              else some (positions1, b1)
            match shrink with
            | none => none
            | some (positions2, b2) =>
              match positions2.getLast? with
              | none => none
              | some back_pos =>
                match b2.set_tile_at_pos back_pos (Cell.SnakeTail s1.state.id) with
                | none => none
                | some b3 =>
                  match b3.set_tile_at_pos next_head_pos (Cell.SnakeHead s1.state.id) with
                  | none => none
                  | some b4 =>
                    some ({ s1 with
                             state := { s1.state with
                                          positions := positions2,
                                          current_orientation := next_or }
                             growth_state := growth2 }, b4)

/-- `Snake::remove_snake_from_board`: clear every body position to `Empty`. -/
def clearPositions (b : GameBoard) : List Int → Option GameBoard
  | [] => some b
  | p :: ps =>
    match b.set_tile_at_pos p Cell.Empty with
    | none => none
    | some b' => clearPositions b' ps

/-! Helper list lemmas for the movement proofs. -/

theorem cons_getLast?_eq_some (a : Int) (l : List Int) :
    ∃ z, (a :: l).getLast? = some z := by
  induction l generalizing a with
  | nil => exact ⟨a, rfl⟩
  | cons b t ih =>
      obtain ⟨z, hz⟩ := ih b
      exact ⟨z, by rwa [List.getLast?_cons_cons]⟩

theorem head?_dropLast_cons_cons (a b : Int) (l : List Int) :
    ((a :: b :: l).dropLast).head? = some a := by
  rfl

/-! ### Claim C1: board effect of a move whose in-bounds destination is
occupied by anything other than Empty/Food.

The spec asserts that on this path the snake is marked `JustDied` and the
only board write is the current-head→Body conversion, like the out-of-bounds
case. The code instead falls through to the full movement bookkeeping, so
the destination cell IS overwritten with `SnakeHead(id)` (and tail writes
also happen). -/

/-- The claim C1 as the spec states it: when a live snake's destination is
in-bounds but not free (not Empty/Food), the snake is marked `JustDied`, and
the only board change is the current-head cell becoming `SnakeBody`; every
other cell — in particular the destination — keeps its previous value. -/
def ClaimC1 : Prop :=
  ∀ (s : Snake) (b : GameBoard) (a : Action) (s' : Snake) (b' : GameBoard)
    (hd : Int) (nc : Coordinate),
    s.state.alive = true →
    s.state.positions.head? = some hd →
    next_coord_towards (Coordinate.from_pos hd)
        (next_orientation s.state.current_orientation a) = some nc →
    b.is_coord_free_or_food nc = some false →
    s.execute_action b a = some (s', b') →
    s'.just_died = true ∧
    b'.cells hd = Cell.SnakeBody s.state.id ∧
    (∀ q, q ≠ hd → b'.cells q = b.cells q)

/-- Concrete input refuting C1: snake 0 of length 1 at position 100 facing
North, with an `Obstacle` at the destination 68. -/
def bC1 : GameBoard :=
  { nb_free_cells := 510
    nb_alive_snakes := 1
    cells := fun p =>
      if p = 100 then Cell.SnakeHead 0
      else if p = 68 then Cell.Obstacle
      else Cell.Empty }

/-- The snake for the C1 counterexample. -/
def sC1 : Snake :=
  { state := { id := 0, positions := [100], current_orientation := Orientation.North, alive := true }
    just_died := false
    growth_state := 3 }

/-- C1 counterexample: executing `Front` from position 100 into the obstacle
at 68 marks the snake dead but ALSO overwrites cell 68 with `SnakeHead 0`
(and pops the tail, leaving cell 100 `Empty`, not `SnakeBody`), contradicting
the claim that every cell other than the old head keeps its previous value. -/
theorem c1_counterexample : ¬ ClaimC1 := by
  intro h
  have hsome : (sC1.execute_action bC1 Action.Front).isSome = true := rfl
  obtain ⟨r, hexec⟩ := Option.isSome_iff_exists.mp hsome
  obtain ⟨s', b'⟩ := r
  have hcl := h sC1 bC1 Action.Front s' b' 100 ⟨4, 2⟩ rfl rfl rfl rfl hexec
  have h68 := hcl.2.2 68 (by norm_num)
  have hx : ((sC1.execute_action bC1 Action.Front).map (fun r => r.2.cells 68)).getD
      Cell.Empty = Cell.SnakeHead 0 := rfl
  rw [hexec] at hx
  simp only [Option.map_some', Option.getD_some] at hx
  rw [hx, show bC1.cells 68 = Cell.Obstacle from rfl] at h68
  exact Cell.noConfusion h68

/-- C1 amended: when a live snake's destination is in-bounds but occupied by
anything other than Empty/Food, the snake is marked `JustDied`, but the full
movement bookkeeping still runs: the destination position is pushed as the
new head and — unlike the out-of-bounds case — the destination cell on the
board is overwritten with `SnakeHead(id)`. -/
theorem c1_amended_occupied_destination :
    ∀ (s : Snake) (b : GameBoard) (a : Action) (s' : Snake) (b' : GameBoard)
      (hd : Int) (nc : Coordinate),
      s.state.alive = true →
      s.state.positions.head? = some hd →
      next_coord_towards (Coordinate.from_pos hd)
          (next_orientation s.state.current_orientation a) = some nc →
      b.is_coord_free_or_food nc = some false →
      s.execute_action b a = some (s', b') →
      s'.just_died = true ∧
      b'.cells nc.to_pos = Cell.SnakeHead s.state.id ∧
      s'.state.positions.head? = some nc.to_pos := by
  intro s b a s' b' hd nc halive hhd hnc hfree hexec
  unfold Snake.execute_action at hexec
  rw [halive] at hexec
  simp only [Bool.true_eq_false, if_false] at hexec
  rw [hhd] at hexec
  dsimp only at hexec
  rw [hnc] at hexec
  dsimp only at hexec
  rw [hfree] at hexec
  dsimp only at hexec
  simp only [Bool.false_eq_true, if_false] at hexec
  split at hexec
  · exact Option.noConfusion hexec
  · rename_i next_pos_type hget
    split at hexec
    · exact Option.noConfusion hexec
    · split at hexec
      · exact Option.noConfusion hexec
      · rename_i b1 hb1
        split at hexec
        · exact Option.noConfusion hexec
        · rename_i positions2 b2 hshrink
          split at hexec
          · exact Option.noConfusion hexec
          · rename_i back_pos hback
            split at hexec
            · exact Option.noConfusion hexec
            · rename_i b3 hb3
              split at hexec
              · exact Option.noConfusion hexec
              · rename_i b4 hb4
                simp only [Option.some.injEq, Prod.mk.injEq] at hexec
                obtain ⟨hs', hb'⟩ := hexec
                subst hs' hb'
                refine ⟨rfl, (set_tile_at_pos_eq_some hb4).1, ?_⟩
                -- positions2 is the shrink output; its head is the pushed
                -- destination position in both shrink branches.
                split at hshrink
                · split at hshrink
                  · rename_i tail_pos htail
                    simp only [Option.map_eq_some'] at hshrink
                    obtain ⟨bmid, _, hpair⟩ := hshrink
                    have h1 : positions2 = (nc.to_pos :: s.state.positions).dropLast := by
                      have h2 := congrArg Prod.fst hpair
                      simpa using h2.symm
                    rw [h1]
                    obtain ⟨hd2, tl2, hcons⟩ :
                        ∃ hd2 tl2, s.state.positions = hd2 :: tl2 := by
                      cases hps : s.state.positions with
                      | nil => rw [hps] at hhd; cases hhd
                      | cons x xs => exact ⟨x, xs, rfl⟩
                    rw [hcons]
                    exact head?_dropLast_cons_cons _ _ _
                  · rename_i htail
                    obtain ⟨z, hz⟩ := cons_getLast?_eq_some nc.to_pos s.state.positions
                    rw [hz] at htail
                    cases htail
                · simp only [Option.some.injEq, Prod.mk.injEq] at hshrink
                  rw [← hshrink.1]
                  rfl

/-- Witness for the amended C1 at the concrete counterexample input: the
snake moving onto the obstacle is marked dead, its new head position 68 is
pushed, and cell 68 on the board is overwritten with `SnakeHead 0`. -/
theorem c1_amended_occupied_destination_witness :
    ∃ s' b', sC1.execute_action bC1 Action.Front = some (s', b') ∧
      s'.just_died = true ∧
      b'.cells ((⟨4, 2⟩ : Coordinate).to_pos) = Cell.SnakeHead 0 ∧
      s'.state.positions.head? = some ((⟨4, 2⟩ : Coordinate).to_pos) := by
  refine ⟨_, _, rfl, ?_⟩
  exact c1_amended_occupied_destination sC1 bC1 Action.Front _ _ 100 ⟨4, 2⟩
    rfl rfl rfl rfl rfl

/-! ### The game: results, construction, initialisation, and one tick. -/

/-- `GameResultWinner` from `game_engine.rs`. -/
inductive GameResultWinner where
  | Winner : Nat → GameResultWinner
  | Draw : GameResultWinner
  deriving DecidableEq, Repr

/-- `GameResults` from `game_engine.rs`: `winner` is `none` for a solo game;
`steps` (`u32`) is the tick count at which the game ended. -/
structure GameResults where
  winner : Option GameResultWinner
  steps : Nat
  deriving DecidableEq, Repr

/-- `Game` from `game_engine.rs`. The step-observer callback lists are
read-only hooks and are omitted; the boxed bots live outside the model (the
chosen actions are explicit parameters of `Game.stepOnce`). The Rust method
`Game::initialize` is modelled by `Game.initGame` below. -/
structure Game where
  board : GameBoard
  snakes : List Snake
  initialized : Bool
  step : Nat
  results : Option GameResults
  lazy_simulation : Bool

/-- `Game::NB_OBSTACLES`. -/
def NB_OBSTACLES : Nat := 5

/-- One obstacle block of `GameBoard::add_random_obstacles`: for a drawn side
length `w` and corner `(x, y)`, write `Obstacle` into the `w × w` square by
direct array assignment and decrement the free-cell counter per cell. The
`Reachable` relation constrains the draws to the generator's ranges
(`1 ≤ w ≤ max`, `0 ≤ x < W - w`, `0 ≤ y < H - w`), under which every write is
in bounds, as in the Rust code. -/
def addObstacleBlock (b : GameBoard) (w x y : Int) : GameBoard :=
  (List.range w.toNat).foldl
    (fun b i =>
      (List.range w.toNat).foldl
        (fun b j =>
          { b with
              cells := fun q =>
                if q = (Coordinate.mk (x + (i : Int)) (y + (j : Int))).to_pos then Cell.Obstacle
                else b.cells q
              nb_free_cells := b.nb_free_cells - 1 })
        b)
    b

/-- `GameBoard::add_random_obstacles` with the random draws `(w, x, y)` made
explicit, one triple per obstacle. -/
def add_random_obstacles (b : GameBoard) (draws : List (Int × Int × Int)) : GameBoard :=
  draws.foldl (fun b d => addObstacleBlock b d.1 d.2.1 d.2.2) b

/-- `Game::new` with its `NB_OBSTACLES` random obstacle draws explicit. -/
def Game.new (draws : List (Int × Int × Int)) : Game :=
  { board := add_random_obstacles GameBoard.new draws
    snakes := []
    initialized := false
    step := 0
    results := none
    lazy_simulation := true }

/-- `Game::add_snake`: panics (modelled `none`) when the id is already used,
otherwise appends a fresh snake. -/
def Game.add_snake (g : Game) (id : Nat) : Option Game :=
  if 0 < (g.snakes.filter (fun s => s.state.id = id)).length then none
  else some { g with snakes := g.snakes ++ [Snake.new id] }

/-- Adding a list of snakes in order (the callers' `add_snake` sequence). -/
def addSnakes (g : Game) : List Nat → Option Game
  | [] => some g
  | i :: rest =>
    match g.add_snake i with
    | none => none
    | some g' => addSnakes g' rest

/-- The placement loop of `Game::initialize` with the accepted random
position for each snake made explicit. The Rust loop redraws (up to 10,000
times) until it hits a cell that reads `Empty`/`Food`; `ps` lists the
accepted draw for each snake in order, so a non-free or out-of-bounds entry
(or too few entries, the `expect` panic) yields `none`. Each placed snake
gets the position pushed onto its body and orientation `North`, and the
board cell is set to `SnakeHead(id)`. -/
def placeSnakes : List Snake → List Int → GameBoard → Option (List Snake × GameBoard)
  | [], _, b => some ([], b)
  | s :: rest, ps, b =>
    match ps with
    | [] => none
    | p :: ps' =>
      match b.get_tile_at_pos p with
      | none => none
      | some t =>
        if t = Cell.Empty ∨ t = Cell.Food then
          let s' := { s with state := { s.state with
                        positions := p :: s.state.positions
                        current_orientation := Orientation.North } }
          match b.set_tile_at_pos p (Cell.SnakeHead s.state.id) with
          | none => none
          | some b' =>
            match placeSnakes rest ps' b' with
            | none => none
            | some (rest', b'') => some (s' :: rest', b'')
        else none

/-- `Game::initialize` (named `initGame` here): place every snake at its
accepted random position and mark the game initialised. -/
def Game.initGame (g : Game) (ps : List Int) : Option Game :=
  match placeSnakes g.snakes ps g.board with
  | none => none
  | some (ss, b) => some { g with snakes := ss, board := b, initialized := true }

/-- The movement loop of `Game::step`: the actions list holds one entry per
still-alive snake, in order (the code zips the alive-filtered iterator with
the collected actions, so a shorter list simply stops moving snakes). -/
def moveSnakes : List Snake → List Action → GameBoard → Option (List Snake × GameBoard)
  | [], _, b => some ([], b)
  | s :: rest, acts, b =>
    if s.state.alive then
      match acts with
      | [] =>
        match moveSnakes rest [] b with
        | none => none
        | some (rest', b') => some (s :: rest', b')
      | a :: acts' =>
        match s.execute_action b a with
        | none => none
        | some (s', b') =>
          match moveSnakes rest acts' b' with
          | none => none
          | some (rest', b'') => some (s' :: rest', b'')
    else
      match moveSnakes rest acts b with
      | none => none
      | some (rest', b') => some (s :: rest', b')

/-- The head-collision re-scan of `Game::step`: a still-alive snake whose
head cell stores another snake's `SnakeHead` is marked `just_died`. -/
def scanHeadCollision (b : GameBoard) (s : Snake) : Option Snake :=
  if s.state.alive then
    match s.state.positions.head? with
    | none => some s
    | some head =>
      match b.get_tile_at_pos head with
      | none => none
      | some t =>
        match t with
        | Cell.SnakeHead i => if i ≠ s.state.id then some { s with just_died := true } else some s
        | _ => some s
  else some s

/-- The re-scan applied to every snake. -/
def scanSnakes (b : GameBoard) : List Snake → Option (List Snake)
  | [] => some []
  | s :: rest =>
    match scanHeadCollision b s with
    | none => none
    | some s' =>
      match scanSnakes b rest with
      | none => none
      | some rest' => some (s' :: rest')

/-- The dead-snake removal of `Game::step`: every `just_died` snake has its
body cleared from the board, its `just_died` flag reset and `alive` set to
false. -/
def removeDead : List Snake → GameBoard → Option (List Snake × GameBoard)
  | [], b => some ([], b)
  | s :: rest, b =>
    if s.just_died then
      match clearPositions b s.state.positions with
      | none => none
      | some b' =>
        match removeDead rest b' with
        | none => none
        | some (rest', b'') =>
          some (({ s with just_died := false
                          state := { s.state with alive := false } }) :: rest', b'')
    else
      match removeDead rest b with
      | none => none
      | some (rest', b') => some (s :: rest', b')

/-- The win/draw computation of `Game::step` (lines 489-514): only when no
results exist yet; a `>0 → 0` crossing yields `Draw` (or no winner when the
game is solo), a `>0 → 1` crossing with more than one snake yields the
surviving snake as winner; `steps` records `step + 1`. The inner `none` is
the `expect` panic when no alive snake can be found for the winner. -/
def computeResults (results : Option GameResults) (prev_nb_alive nb_alive : Nat)
    (snakes : List Snake) (stepc : Nat) : Option (Option GameResults) :=
  if results.isNone then
    if 0 < prev_nb_alive ∧ nb_alive = 0 then
      some (some { winner := if 1 < snakes.length then some GameResultWinner.Draw else none
                   steps := stepc + 1 })
    else if 0 < prev_nb_alive ∧ nb_alive = 1 ∧ 1 < snakes.length then
      match (snakes.filter (fun s => s.state.alive)).head? with
      | some w => some (some { winner := some (GameResultWinner.Winner w.state.id)
                               steps := stepc + 1 })
      | none => none
    else some results
  else some results

/-- `GameBoard::update_food` with the random draw explicit: `none` models a
failed probability roll, `some c` a successful roll that picked coordinate
`c` (the generator always picks `0 ≤ x < W`, `0 ≤ y < H`; `Reachable`
carries that constraint). The cell is set to `Food` only when it currently
reads Empty/Food. -/
def GameBoard.update_food (b : GameBoard) (choice : Option Coordinate) : Option GameBoard :=
  match choice with
  | none => some b
  | some coord =>
    let pos := coord.to_pos
    match b.is_pos_free_or_food pos with
    | none => none
    | some free => if free then b.set_tile_at_pos pos Cell.Food else some b

/-- `GameBoard::update`: recount the free (Empty/Food) cells over the whole
grid, then run the food regeneration draw. -/
def GameBoard.update (b : GameBoard) (choice : Option Coordinate) : Option GameBoard :=
  let n := ((List.range (BOARD_WIDTH * BOARD_HEIGHT).toNat).filter
    (fun i => match b.cells (i : Int) with
      | Cell.Empty => true
      | Cell.Food => true
      | _ => false)).length
  GameBoard.update_food { b with nb_free_cells := (n : Int) } choice

/-- `Game::step` (named `stepOnce`; `step` is the tick-counter field), with
the bots' chosen actions and the food draw explicit: assert initialisation,
count the previously-alive snakes and publish the count on the board, move
every alive snake with its action, re-scan head collisions, remove the dead,
compute results on an alive-count crossing, update the board, and bump the
tick counter. -/
def Game.stepOnce (g : Game) (acts : List Action) (food_choice : Option Coordinate) :
    Option Game :=
  if g.initialized = false then none else
  let prev_nb_alive := (g.snakes.filter (fun s => s.state.alive)).length
  let board0 := { g.board with nb_alive_snakes := prev_nb_alive }
  match moveSnakes g.snakes acts board0 with
  | none => none
  | some (snakes1, board1) =>
    match scanSnakes board1 snakes1 with
    | none => none
    | some snakes2 =>
      match removeDead snakes2 board1 with
      | none => none
      | some (snakes3, board2) =>
        let nb_alive := (snakes3.filter (fun s => s.state.alive)).length
        match computeResults g.results prev_nb_alive nb_alive snakes3 g.step with
        | none => none
        | some results1 =>
          match board2.update food_choice with
          | none => none
          | some board3 =>
            some { g with board := board3, snakes := snakes3
                          results := results1, step := g.step + 1 }

/-- Alive-snake count of a game. -/
def aliveCount (g : Game) : Nat := (g.snakes.filter (fun s => s.state.alive)).length

/-! ### Claim C6: results, once set, are never overwritten by later ticks. -/

/-- C6: once the game's results are set, no further tick changes them — for
any game whose `results` field is `some r`, a successful `stepOnce` yields a
game whose `results` field is still exactly `some r` (same winner, same
steps). This is stated for every game state, which in particular covers
every reachable one. -/
theorem c6_results_immutable :
    ∀ (g : Game) (acts : List Action) (food : Option Coordinate) (g' : Game) (r : GameResults),
      g.results = some r → g.stepOnce acts food = some g' → g'.results = some r := by
  intro g acts food g' r hres hstep
  unfold Game.stepOnce at hstep
  split at hstep
  · exact Option.noConfusion hstep
  · dsimp only at hstep
    split at hstep
    · exact Option.noConfusion hstep
    · rename_i snakes1 board1 hmv
      split at hstep
      · exact Option.noConfusion hstep
      · rename_i snakes2 hscan
        split at hstep
        · exact Option.noConfusion hstep
        · rename_i snakes3 board2 hrm
          split at hstep
          · exact Option.noConfusion hstep
          · rename_i results1 hcr
            split at hstep
            · exact Option.noConfusion hstep
            · rename_i board3 hup
              unfold computeResults at hcr
              rw [hres] at hcr
              simp only [Option.isNone_some, Bool.false_eq_true, if_false,
                Option.some.injEq] at hcr
              simp only [Option.some.injEq] at hstep
              subst hstep
              simp only [← hcr, hres]

/-- Witness game for C6: an initialised game with results already present. -/
def gC6 : Game :=
  { board := GameBoard.new
    snakes := []
    initialized := true
    step := 3
    results := some { winner := none, steps := 2 }
    lazy_simulation := true }

/-- Witness for C6 at a concrete input: stepping a finished game leaves its
recorded results untouched. -/
theorem c6_results_immutable_witness :
    ∃ g', gC6.stepOnce [] none = some g' ∧
      g'.results = some { winner := none, steps := 2 } := by
  have hsome : (gC6.stepOnce [] none).isSome = true := rfl
  obtain ⟨g', hg⟩ := Option.isSome_iff_exists.mp hsome
  exact ⟨g', hg, c6_results_immutable gC6 [] none g' _ rfl hg⟩

/-! ### Claim C5: results are computed exactly at the alive-count crossing. -/

/-- C5: for a game without results, a completed tick sets results exactly
when the alive-count crosses from `>0` to `0` (winner `Draw` when the game
has more than one snake, `none` when solo) or from `>0` to exactly `1` with
more than one snake in total (winner = the surviving snake's id); in both
cases the recorded `steps` is `step + 1`, the number of the tick on which
the death occurred; when no crossing happens, results stay unset. In
particular a solo snake dying on tick N records no winner and `steps = N`. -/
theorem c5_results_at_crossing :
    ∀ (g : Game) (acts : List Action) (food : Option Coordinate) (g' : Game),
      g.results = none → g.stepOnce acts food = some g' →
      ((0 < aliveCount g ∧ aliveCount g' = 0 →
          g'.results = some { winner := if 1 < g'.snakes.length
                                        then some GameResultWinner.Draw else none
                              steps := g.step + 1 }) ∧
       (0 < aliveCount g ∧ aliveCount g' = 1 ∧ 1 < g'.snakes.length →
          ∃ w, (g'.snakes.filter (fun s => s.state.alive)).head? = some w ∧
            g'.results = some { winner := some (GameResultWinner.Winner w.state.id)
                                steps := g.step + 1 }) ∧
       (¬ (0 < aliveCount g ∧
            (aliveCount g' = 0 ∨ (aliveCount g' = 1 ∧ 1 < g'.snakes.length))) →
          g'.results = none)) := by
  intro g acts food g' hres hstep
  unfold Game.stepOnce at hstep
  split at hstep
  · exact Option.noConfusion hstep
  · dsimp only at hstep
    split at hstep
    · exact Option.noConfusion hstep
    · rename_i snakes1 board1 hmv
      split at hstep
      · exact Option.noConfusion hstep
      · rename_i snakes2 hscan
        split at hstep
        · exact Option.noConfusion hstep
        · rename_i snakes3 board2 hrm
          split at hstep
          · exact Option.noConfusion hstep
          · rename_i results1 hcr
            split at hstep
            · exact Option.noConfusion hstep
            · rename_i board3 hup
              simp only [Option.some.injEq] at hstep
              subst hstep
              unfold computeResults at hcr
              rw [hres] at hcr
              simp only [Option.isNone_none, if_true] at hcr
              unfold aliveCount
              dsimp only
              split at hcr
              · rename_i hc1
                simp only [Option.some.injEq] at hcr
                subst hcr
                refine ⟨fun _ => rfl, fun hc2 => absurd hc1.2 (by omega), fun hc3 => ?_⟩
                exact absurd ⟨hc1.1, Or.inl hc1.2⟩ hc3
              · rename_i hnc1
                split at hcr
                · rename_i hc2
                  split at hcr
                  · rename_i w hw
                    simp only [Option.some.injEq] at hcr
                    subst hcr
                    refine ⟨fun hc1 => absurd hc1.2 (by omega), fun _ => ⟨w, hw, rfl⟩,
                            fun hc3 => ?_⟩
                    exact absurd ⟨hc2.1, Or.inr ⟨hc2.2.1, hc2.2.2⟩⟩ hc3
                  · exact Option.noConfusion hcr
                · rename_i hnc2
                  simp only [Option.some.injEq] at hcr
                  subst hcr
                  refine ⟨fun hc1 => absurd ⟨hc1.1, hc1.2⟩ hnc1,
                          fun hc2 => absurd ⟨hc2.1, hc2.2.1, hc2.2.2⟩ hnc2,
                          fun _ => rfl⟩

/-- Witness game for C5: a solo snake of length 1 at the top-left corner,
facing North, about to step out of bounds on tick 5. -/
def gC5 : Game :=
  { board := { nb_free_cells := 511
               nb_alive_snakes := 1
               cells := fun p => if p = 0 then Cell.SnakeHead 0 else Cell.Empty }
    snakes := [{ state := { id := 0, positions := [0]
                            current_orientation := Orientation.North, alive := true }
                 just_died := false, growth_state := 3 }]
    initialized := true
    step := 4
    results := none
    lazy_simulation := true }

/-- Witness for C5 at a concrete input: a solo snake dying on its fifth tick
produces `winner = none` and `steps = 5`. -/
theorem c5_results_at_crossing_witness :
    ∃ g', gC5.stepOnce [Action.Front] none = some g' ∧
      g'.results = some { winner := none, steps := 5 } := by
  have hsome : (gC5.stepOnce [Action.Front] none).isSome = true := rfl
  obtain ⟨g', hg⟩ := Option.isSome_iff_exists.mp hsome
  have halive : ((gC5.stepOnce [Action.Front] none).map
      (fun g => (aliveCount g, g.snakes.length))).getD (7, 7) = (0, 1) := rfl
  rw [hg] at halive
  simp only [Option.map_some', Option.getD_some, Prod.mk.injEq] at halive
  have hmain := (c5_results_at_crossing gC5 [Action.Front] none g' rfl hg).1
    ⟨by decide, halive.1⟩
  rw [halive.2] at hmain
  exact ⟨g', hg, by simpa using hmain⟩

/-! ### Reachable game states.

A game state is reachable when it arises from `Game::new` (5 obstacle draws
within the generator's ranges), a sequence of `add_snake` calls, one
`initialize`, and any number of ticks whose bot actions are arbitrary and
whose food draws lie in the generator's ranges. -/

/-- The ranges `add_random_obstacles` draws from: side `w ∈ [1, MAX_SIZE=2]`,
corner `x ∈ [0, W - w)`, `y ∈ [0, H - w)`; `Game::new` makes exactly
`NB_OBSTACLES` draws. -/
def drawsWF (draws : List (Int × Int × Int)) : Prop :=
  draws.length = NB_OBSTACLES ∧
  ∀ d ∈ draws, 1 ≤ d.1 ∧ d.1 ≤ 2 ∧ 0 ≤ d.2.1 ∧ d.2.1 < BOARD_WIDTH - d.1 ∧
    0 ≤ d.2.2 ∧ d.2.2 < BOARD_HEIGHT - d.1

/-- The ranges `update_food` draws from: `x ∈ [0, W)`, `y ∈ [0, H)`. -/
def foodWF (choice : Option Coordinate) : Prop :=
  ∀ c, choice = some c → 0 ≤ c.x ∧ c.x < BOARD_WIDTH ∧ 0 ≤ c.y ∧ c.y < BOARD_HEIGHT

/-- Reachable game states: an initialised game, or one more completed tick. -/
inductive Reachable : Game → Prop where
  | boot (draws : List (Int × Int × Int)) (ids : List Nat) (ps : List Int) (g₀ g : Game) :
      drawsWF draws →
      addSnakes (Game.new draws) ids = some g₀ →
      g₀.initGame ps = some g →
      Reachable g
  | tick (g g' : Game) (acts : List Action) (food : Option Coordinate) :
      Reachable g → foodWF food →
      g.stepOnce acts food = some g' →
      Reachable g'

/-! ### A concrete reachable run refuting the per-cell ownership claim.

Four snakes: A (id 0) placed at (7,10), B (id 1) at (8,11), C (id 2) at
(8,8), E (id 3) at (9,9); everyone pushes `Front` for five ticks. On tick 6,
E turns `Left` into C's freshly re-written tail cell (8,4) = 136 and dies;
its removal clears that cell to `Empty` even though the live C still holds
it. On tick 7, A turns `Right` and B goes `Front` into that seemingly empty
cell, while C eats the tick-6 food drop at (8,1) so its tail stays at 136
and is re-written as `SnakeTail` after A and B moved: the head-collision
re-scan then sees no `SnakeHead` there, so A survives while B dies — and A
and C end the tick both alive and both claiming position 136. -/

/-- Obstacle draws of the run: five 1×1 blocks at (30, 0), in range. -/
def runDraws : List (Int × Int × Int) := List.replicate NB_OBSTACLES (1, 30, 0)

/-- The snake ids of the run (insertion order A, B, C, E). -/
def runIds : List Nat := [0, 1, 2, 3]

/-- The accepted placement draws: A at 327 = (7,10), B at 360 = (8,11),
C at 264 = (8,8), E at 297 = (9,9). -/
def runPlaces : List Int := [327, 360, 264, 297]

/-- The bots' actions for tick `n+1` (index `n`): everyone `Front`, except
E turning `Left` on tick 6 and A turning `Right` on tick 7 (E is dead by
then, so tick 7 lists three actions). -/
def actsAt (n : Nat) : List Action :=
  if n = 5 then [Action.Front, Action.Front, Action.Front, Action.Left]
  else if n = 6 then [Action.Right, Action.Front, Action.Front]
  else [Action.Front, Action.Front, Action.Front, Action.Front]

/-- The food draws: one successful roll at (8,1) at the end of tick 6. -/
def foodAt (n : Nat) : Option Coordinate := if n = 5 then some ⟨8, 1⟩ else none

/-- The run: state after `n` completed ticks. -/
def runGame : Nat → Option Game
  | 0 =>
    match addSnakes (Game.new runDraws) runIds with
    | none => none
    | some g₀ => g₀.initGame runPlaces
  | n + 1 =>
    match runGame n with
    | none => none
    | some g => g.stepOnce (actsAt n) (foodAt n)

theorem runDraws_wf : drawsWF runDraws := by
  constructor
  · rfl
  · intro d hd
    simp only [runDraws, List.mem_replicate] at hd
    rw [hd.2]
    exact ⟨by norm_num, by norm_num, by norm_num,
      by norm_num [BOARD_WIDTH], by norm_num, by norm_num [BOARD_HEIGHT]⟩

theorem foodAt_wf : ∀ n, foodWF (foodAt n) := by
  intro n
  unfold foodAt foodWF
  split
  · intro c hc
    cases hc
    refine ⟨by norm_num, by norm_num [BOARD_WIDTH], by norm_num, by norm_num [BOARD_HEIGHT]⟩
  · intro c hc
    exact Option.noConfusion hc

theorem runGame_reachable : ∀ n g, runGame n = some g → Reachable g := by
  intro n
  induction n with
  | zero =>
    intro g hg
    unfold runGame at hg
    split at hg
    · exact Option.noConfusion hg
    · rename_i g₀ h₀
      exact Reachable.boot runDraws runIds runPlaces g₀ g runDraws_wf h₀ hg
  | succ n ih =>
    intro g hg
    unfold runGame at hg
    split at hg
    · exact Option.noConfusion hg
    · rename_i gp hgp
      exact Reachable.tick gp g (actsAt n) (foodAt n) (ih gp hgp) (foodAt_wf n) hg

/-! ### Claim C2: post-tick per-cell ownership and exclusivity. -/

/-- The three cell values belonging to snake id `i`. -/
def snakeCellValue (i : Nat) (c : Cell) : Prop :=
  c = Cell.SnakeHead i ∨ c = Cell.SnakeBody i ∨ c = Cell.SnakeTail i

/-- Every snake-valued cell's position lies in the body of a live snake with
that id. -/
def snakeCellOwned (ss : List Snake) (b : GameBoard) : Prop :=
  ∀ p i, snakeCellValue i (b.cells p) →
    ∃ s, s ∈ ss ∧ s.state.id = i ∧ s.state.alive = true ∧ p ∈ s.state.positions

/-- No position is simultaneously claimed by two live snakes (with distinct
ids). -/
def noDoubleClaim (ss : List Snake) : Prop :=
  ∀ p s t, s ∈ ss → t ∈ ss → s.state.alive = true → t.state.alive = true →
    p ∈ s.state.positions → p ∈ t.state.positions → s.state.id = t.state.id

/-- The claim C2 as the spec states it: after every completed tick of a
reachable game, every `SnakeHead`/`SnakeBody`/`SnakeTail` cell is claimed by
exactly the one live snake with that id, and no position is claimed by two
live snakes post-resolution. -/
def ClaimC2 : Prop :=
  ∀ (g : Game) (acts : List Action) (food : Option Coordinate) (g' : Game),
    Reachable g → foodWF food → g.stepOnce acts food = some g' →
    snakeCellOwned g'.snakes g'.board ∧ noDoubleClaim g'.snakes

/-- Snake A as it stands after tick 7 of the run. -/
def sA7 : Snake :=
  ⟨⟨0, [136, 135, 167], Orientation.East, true⟩, false, 2⟩

/-- Snake C as it stands after tick 7 of the run. -/
def sC7 : Snake :=
  ⟨⟨2, [40, 72, 104, 136], Orientation.North, true⟩, false, 2⟩

/-- C2 counterexample: after tick 7 of the concrete run, snakes 0 and 2 are
both alive and both claim position 136 — a dead snake's board removal on
tick 6 cleared a cell the live snake 2 still occupied, letting snake 0 move
onto it one tick later. -/
theorem c2_counterexample : ¬ ClaimC2 := by
  intro h
  have h6some : (runGame 6).isSome = true := rfl
  obtain ⟨g6, hg6⟩ := Option.isSome_iff_exists.mp h6some
  have h7some : (runGame 7).isSome = true := rfl
  obtain ⟨g7, hg7⟩ := Option.isSome_iff_exists.mp h7some
  have h7eq : (match runGame 6 with
      | none => none
      | some g => g.stepOnce (actsAt 6) (foodAt 6)) = some g7 := hg7
  rw [hg6] at h7eq
  dsimp only at h7eq
  have hstep : g6.stepOnce (actsAt 6) (foodAt 6) = some g7 := h7eq
  have hmain := h g6 (actsAt 6) (foodAt 6) g7
    (runGame_reachable 6 g6 hg6) (foodAt_wf 6) hstep
  have hsnA : ((runGame 7).map (fun g => g.snakes.get? 0)).getD none = some sA7 := rfl
  have hsnC : ((runGame 7).map (fun g => g.snakes.get? 2)).getD none = some sC7 := rfl
  rw [hg7] at hsnA hsnC
  simp only [Option.map_some', Option.getD_some] at hsnA hsnC
  have hid := hmain.2 136 sA7 sC7 (List.get?_mem hsnA) (List.get?_mem hsnC)
    rfl rfl (by decide) (by decide)
  exact absurd hid (by decide)

/-! ### Claim C4: symmetry of same-cell double moves. -/

/-- The destination position a snake's chosen action aims its head at
(`none` when the move leaves the board or the snake has no body yet). -/
def intendedDest (s : Snake) (a : Action) : Option Int :=
  match s.state.positions.head? with
  | none => none
  | some hd =>
    (next_coord_towards (Coordinate.from_pos hd)
      (next_orientation s.state.current_orientation a)).map Coordinate.to_pos

/-- Every snake with id `i` in the game is dead. -/
def snakeDeadIn (g : Game) (i : Nat) : Prop :=
  ∀ u, u ∈ g.snakes → u.state.id = i → u.state.alive = false

/-- The claim C4 as the spec states it: whenever the chosen actions of two
live snakes of a reachable game aim both heads at the same `Empty` cell in
the same tick, the post-movement head-collision re-scan marks both
`JustDied` and both end the tick dead, regardless of processing order. The
two snakes are the `i`-th and `j`-th entries of the (alive-filtered snakes,
actions) zip the movement loop iterates. -/
def ClaimC4 : Prop :=
  ∀ (g : Game) (acts : List Action) (food : Option Coordinate) (g' : Game)
    (i j : Nat) (s : Snake) (a : Action) (t : Snake) (b : Action) (X : Int),
    Reachable g → foodWF food → g.stepOnce acts food = some g' →
    ((g.snakes.filter (fun s => s.state.alive)).zip acts).get? i = some (s, a) →
    ((g.snakes.filter (fun s => s.state.alive)).zip acts).get? j = some (t, b) →
    s.state.id ≠ t.state.id →
    intendedDest s a = some X → intendedDest t b = some X →
    g.board.cells X = Cell.Empty →
    snakeDeadIn g' s.state.id ∧ snakeDeadIn g' t.state.id

/-- Snake A as it stands after tick 6 of the run. -/
def sA6 : Snake :=
  ⟨⟨0, [135, 167, 199], Orientation.North, true⟩, false, 3⟩

/-- Snake B as it stands after tick 6 of the run. -/
def sB6 : Snake :=
  ⟨⟨1, [168, 200, 232], Orientation.North, true⟩, false, 3⟩

/-- C4 counterexample: on tick 7 of the concrete run, snakes 0 and 1 both
aim at the empty cell 136, yet snake 0 ends the tick alive — snake 2's tail
write to that cell (later in the same tick) hides snake 1's head from the
re-scan, so the claimed both-die symmetry fails. -/
theorem c4_counterexample : ¬ ClaimC4 := by
  intro h
  have h6some : (runGame 6).isSome = true := rfl
  obtain ⟨g6, hg6⟩ := Option.isSome_iff_exists.mp h6some
  have h7some : (runGame 7).isSome = true := rfl
  obtain ⟨g7, hg7⟩ := Option.isSome_iff_exists.mp h7some
  have h7eq : (match runGame 6 with
      | none => none
      | some g => g.stepOnce (actsAt 6) (foodAt 6)) = some g7 := hg7
  rw [hg6] at h7eq
  dsimp only at h7eq
  have hstep : g6.stepOnce (actsAt 6) (foodAt 6) = some g7 := h7eq
  have hp0 : ((runGame 6).map (fun g =>
      ((g.snakes.filter (fun s => s.state.alive)).zip (actsAt 6)).get? 0)).getD none =
      some (sA6, Action.Right) := rfl
  have hp1 : ((runGame 6).map (fun g =>
      ((g.snakes.filter (fun s => s.state.alive)).zip (actsAt 6)).get? 1)).getD none =
      some (sB6, Action.Front) := rfl
  have hcell : ((runGame 6).map (fun g => g.board.cells 136)).getD Cell.Wall =
      Cell.Empty := rfl
  rw [hg6] at hp0 hp1 hcell
  simp only [Option.map_some', Option.getD_some] at hp0 hp1 hcell
  have hmain := h g6 (actsAt 6) (foodAt 6) g7 0 1 sA6 Action.Right sB6 Action.Front 136
    (runGame_reachable 6 g6 hg6) (foodAt_wf 6) hstep hp0 hp1 (by decide)
    (by decide) (by decide) hcell
  have hsnA : ((runGame 7).map (fun g => g.snakes.get? 0)).getD none = some sA7 := rfl
  rw [hg7] at hsnA
  simp only [Option.map_some', Option.getD_some] at hsnA
  have hdead := hmain.1 sA7 (List.get?_mem hsnA) rfl
  exact Bool.noConfusion hdead

/-! ### Facts about an executed in-bounds move, shared by the collision
analyses. -/

/-- A successful in-bounds move always commits its destination: id and alive
flag persist, the destination is pushed as the new head position, the board
stores `SnakeHead(id)` at the (in-bounds) destination, and when the
destination cell was not free the snake was marked `just_died`. -/
theorem execute_action_move_facts :
    ∀ (s : Snake) (b : GameBoard) (a : Action) (s' : Snake) (b' : GameBoard)
      (hd : Int) (nc : Coordinate),
      s.state.alive = true →
      s.state.positions.head? = some hd →
      next_coord_towards (Coordinate.from_pos hd)
          (next_orientation s.state.current_orientation a) = some nc →
      s.execute_action b a = some (s', b') →
      s'.state.id = s.state.id ∧ s'.state.alive = true ∧
      s'.state.positions.head? = some nc.to_pos ∧
      b'.cells nc.to_pos = Cell.SnakeHead s.state.id ∧
      (0 ≤ nc.to_pos ∧ nc.to_pos < BOARD_WIDTH * BOARD_HEIGHT) ∧
      (b.is_coord_free_or_food nc = some false → s'.just_died = true) := by
  intro s b a s' b' hd nc halive hhd hnc hexec
  unfold Snake.execute_action at hexec
  rw [halive] at hexec
  simp only [Bool.true_eq_false, if_false] at hexec
  rw [hhd] at hexec
  dsimp only at hexec
  rw [hnc] at hexec
  dsimp only at hexec
  split at hexec
  · exact Option.noConfusion hexec
  · rename_i free hfree
    cases free
    case false =>
      simp only [Bool.false_eq_true, if_false] at hexec
      split at hexec
      · exact Option.noConfusion hexec
      · rename_i next_pos_type hget
        split at hexec
        · exact Option.noConfusion hexec
        · split at hexec
          · exact Option.noConfusion hexec
          · rename_i b1 hb1
            split at hexec
            · exact Option.noConfusion hexec
            · rename_i positions2 b2 hshrink
              split at hexec
              · exact Option.noConfusion hexec
              · rename_i back_pos hback
                split at hexec
                · exact Option.noConfusion hexec
                · rename_i b3 hb3
                  split at hexec
                  · exact Option.noConfusion hexec
                  · rename_i b4 hb4
                    simp only [Option.some.injEq, Prod.mk.injEq] at hexec
                    obtain ⟨hs', hb'⟩ := hexec
                    subst hs' hb'
                    have hbnd : 0 ≤ nc.to_pos ∧ nc.to_pos < BOARD_WIDTH * BOARD_HEIGHT := by
                      have hb4some : (b3.set_tile_at_pos nc.to_pos
                          (Cell.SnakeHead s.state.id)).isSome = true := by
                        rw [hb4]; rfl
                      exact set_tile_at_pos_isSome_iff.mp hb4some
                    refine ⟨rfl, halive, ?_, (set_tile_at_pos_eq_some hb4).1, hbnd,
                      fun _ => rfl⟩
                    split at hshrink
                    · split at hshrink
                      · rename_i tail_pos htail
                        simp only [Option.map_eq_some'] at hshrink
                        obtain ⟨bmid, _, hpair⟩ := hshrink
                        have h1 : positions2 = (nc.to_pos :: s.state.positions).dropLast := by
                          have h2 := congrArg Prod.fst hpair
                          simpa using h2.symm
                        rw [h1]
                        obtain ⟨hd2, tl2, hcons⟩ :
                            ∃ hd2 tl2, s.state.positions = hd2 :: tl2 := by
                          cases hps : s.state.positions with
                          | nil => rw [hps] at hhd; cases hhd
                          | cons x xs => exact ⟨x, xs, rfl⟩
                        rw [hcons]
                        exact head?_dropLast_cons_cons _ _ _
                      · rename_i htail
                        obtain ⟨z, hz⟩ := cons_getLast?_eq_some nc.to_pos s.state.positions
                        rw [hz] at htail
                        cases htail
                    · simp only [Option.some.injEq, Prod.mk.injEq] at hshrink
                      rw [← hshrink.1]
                      rfl
    case true =>
      simp only [eq_self_iff_true, if_true] at hexec
      split at hexec
      · exact Option.noConfusion hexec
      · rename_i next_pos_type hget
        split at hexec
        · exact Option.noConfusion hexec
        · split at hexec
          · exact Option.noConfusion hexec
          · rename_i b1 hb1
            split at hexec
            · exact Option.noConfusion hexec
            · rename_i positions2 b2 hshrink
              split at hexec
              · exact Option.noConfusion hexec
              · rename_i back_pos hback
                split at hexec
                · exact Option.noConfusion hexec
                · rename_i b3 hb3
                  split at hexec
                  · exact Option.noConfusion hexec
                  · rename_i b4 hb4
                    simp only [Option.some.injEq, Prod.mk.injEq] at hexec
                    obtain ⟨hs', hb'⟩ := hexec
                    subst hs' hb'
                    have hbnd : 0 ≤ nc.to_pos ∧ nc.to_pos < BOARD_WIDTH * BOARD_HEIGHT := by
                      have hb4some : (b3.set_tile_at_pos nc.to_pos
                          (Cell.SnakeHead s.state.id)).isSome = true := by
                        rw [hb4]; rfl
                      exact set_tile_at_pos_isSome_iff.mp hb4some
                    refine ⟨rfl, halive, ?_, (set_tile_at_pos_eq_some hb4).1, hbnd,
                      fun hcon => ?_⟩
                    · split at hshrink
                      · split at hshrink
                        · rename_i tail_pos htail
                          simp only [Option.map_eq_some'] at hshrink
                          obtain ⟨bmid, _, hpair⟩ := hshrink
                          have h1 : positions2 = (nc.to_pos :: s.state.positions).dropLast := by
                            have h2 := congrArg Prod.fst hpair
                            simpa using h2.symm
                          rw [h1]
                          obtain ⟨hd2, tl2, hcons⟩ :
                              ∃ hd2 tl2, s.state.positions = hd2 :: tl2 := by
                            cases hps : s.state.positions with
                            | nil => rw [hps] at hhd; cases hhd
                            | cons x xs => exact ⟨x, xs, rfl⟩
                          rw [hcons]
                          exact head?_dropLast_cons_cons _ _ _
                        · rename_i htail
                          obtain ⟨z, hz⟩ := cons_getLast?_eq_some nc.to_pos s.state.positions
                          rw [hz] at htail
                          cases htail
                      · simp only [Option.some.injEq, Prod.mk.injEq] at hshrink
                        rw [← hshrink.1]
                        rfl
                    · rw [hfree] at hcon
                      simp at hcon

/-- A cell that stores a snake head is not free, whatever coordinate maps to
it. -/
theorem is_coord_free_or_food_of_head {b : GameBoard} {nc : Coordinate} {j : Nat}
    (hcell : b.cells nc.to_pos = Cell.SnakeHead j)
    (hin : 0 ≤ nc.to_pos ∧ nc.to_pos < BOARD_WIDTH * BOARD_HEIGHT) :
    b.is_coord_free_or_food nc = some false := by
  unfold GameBoard.is_coord_free_or_food GameBoard.get_tile_at_coord
  split
  · rfl
  · unfold GameBoard.get_tile_at_pos
    rw [if_pos hin, hcell]
    rfl

/-! Destruction lemmas for the step phases on cons cells. -/

theorem moveSnakes_nil (b : GameBoard) :
    moveSnakes [] [] b = some ([], b) := rfl

theorem scanSnakes_nil (b : GameBoard) : scanSnakes b [] = some [] := rfl

theorem removeDead_nil (b : GameBoard) : removeDead [] b = some ([], b) := rfl

theorem moveSnakes_cons_alive {s : Snake} {rest : List Snake} {a : Action}
    {acts : List Action} {b : GameBoard} {res : List Snake × GameBoard}
    (halive : s.state.alive = true)
    (h : moveSnakes (s :: rest) (a :: acts) b = some res) :
    ∃ s' b' rest' b'', s.execute_action b a = some (s', b') ∧
      moveSnakes rest acts b' = some (rest', b'') ∧ res = (s' :: rest', b'') := by
  unfold moveSnakes at h
  rw [halive] at h
  simp only [eq_self_iff_true, if_true] at h
  split at h
  · exact Option.noConfusion h
  · rename_i s' b' hexec
    split at h
    · exact Option.noConfusion h
    · rename_i rest' b'' hmv
      simp only [Option.some.injEq] at h
      exact ⟨s', b', rest', b'', hexec, hmv, h.symm⟩

theorem scanSnakes_cons {b : GameBoard} {s : Snake} {rest : List Snake}
    {out : List Snake} (h : scanSnakes b (s :: rest) = some out) :
    ∃ s' rest', scanHeadCollision b s = some s' ∧ scanSnakes b rest = some rest' ∧
      out = s' :: rest' := by
  unfold scanSnakes at h
  split at h
  · exact Option.noConfusion h
  · rename_i s' hscan
    split at h
    · exact Option.noConfusion h
    · rename_i rest' hrest
      simp only [Option.some.injEq] at h
      exact ⟨s', rest', hscan, hrest, h.symm⟩

theorem removeDead_cons_dead {s : Snake} {rest : List Snake} {b : GameBoard}
    {res : List Snake × GameBoard} (hjd : s.just_died = true)
    (h : removeDead (s :: rest) b = some res) :
    ∃ b' rest' b'', clearPositions b s.state.positions = some b' ∧
      removeDead rest b' = some (rest', b'') ∧
      res = (({ s with just_died := false
                       state := { s.state with alive := false } }) :: rest', b'') := by
  unfold removeDead at h
  rw [hjd] at h
  simp only [eq_self_iff_true, if_true] at h
  split at h
  · exact Option.noConfusion h
  · rename_i b' hclear
    split at h
    · exact Option.noConfusion h
    · rename_i rest' b'' hrm
      simp only [Option.some.injEq] at h
      exact ⟨b', rest', b'', hclear, hrm, h.symm⟩

theorem scanHeadCollision_marks {b : GameBoard} {s : Snake} {head : Int} {j : Nat}
    (halive : s.state.alive = true)
    (hhead : s.state.positions.head? = some head)
    (hin : 0 ≤ head ∧ head < BOARD_WIDTH * BOARD_HEIGHT)
    (hcell : b.cells head = Cell.SnakeHead j) (hne : j ≠ s.state.id) :
    scanHeadCollision b s = some { s with just_died := true } := by
  unfold scanHeadCollision
  rw [halive]
  simp only [eq_self_iff_true, if_true]
  rw [hhead]
  dsimp only
  unfold GameBoard.get_tile_at_pos
  rw [if_pos hin, hcell]
  dsimp only
  rw [if_pos hne]

theorem scanHeadCollision_own {b : GameBoard} {s : Snake} {head : Int} {j : Nat}
    (halive : s.state.alive = true)
    (hhead : s.state.positions.head? = some head)
    (hin : 0 ≤ head ∧ head < BOARD_WIDTH * BOARD_HEIGHT)
    (hcell : b.cells head = Cell.SnakeHead j) (hown : j = s.state.id) :
    scanHeadCollision b s = some s := by
  unfold scanHeadCollision
  rw [halive]
  simp only [eq_self_iff_true, if_true]
  rw [hhead]
  dsimp only
  unfold GameBoard.get_tile_at_pos
  rw [if_pos hin, hcell]
  dsimp only
  rw [if_neg (by simp [hown])]

/-! ### Claim C4 amended: the two-snake same-cell symmetry. -/

/-- C4 amended: in a game with exactly two snakes, both alive, whose chosen
actions aim both heads at the same cell (empty before the tick), the tick
kills both snakes — neither survives owning the cell, whichever of the two
moves first. (With more snakes the claimed symmetry fails: a third snake's
later write to that cell within the same tick can hide the first mover's
overwritten head from the re-scan, as the counterexample shows.) -/
theorem c4_amended_two_snake_symmetry :
    ∀ (g : Game) (a₁ a₂ : Action) (food : Option Coordinate) (g' : Game)
      (s₁ s₂ : Snake) (hd₁ hd₂ : Int) (nc₁ nc₂ : Coordinate),
      g.snakes = [s₁, s₂] →
      s₁.state.alive = true → s₂.state.alive = true →
      s₁.state.id ≠ s₂.state.id →
      s₁.state.positions.head? = some hd₁ →
      s₂.state.positions.head? = some hd₂ →
      next_coord_towards (Coordinate.from_pos hd₁)
          (next_orientation s₁.state.current_orientation a₁) = some nc₁ →
      next_coord_towards (Coordinate.from_pos hd₂)
          (next_orientation s₂.state.current_orientation a₂) = some nc₂ →
      nc₁.to_pos = nc₂.to_pos →
      g.board.cells nc₁.to_pos = Cell.Empty →
      g.stepOnce [a₁, a₂] food = some g' →
      ∀ u, u ∈ g'.snakes → u.state.alive = false := by
  intro g a₁ a₂ food g' s₁ s₂ hd₁ hd₂ nc₁ nc₂ hsn h1a h2a hne hhd₁ hhd₂ hnc₁ hnc₂
    hXeq hcell hstep
  unfold Game.stepOnce at hstep
  split at hstep
  · exact Option.noConfusion hstep
  · dsimp only at hstep
    split at hstep
    · exact Option.noConfusion hstep
    · rename_i snakes1 board1 hmv
      rw [hsn] at hmv
      obtain ⟨s₁', b1, rest1, bfin, hexec1, hmv2, hpair1⟩ := moveSnakes_cons_alive h1a hmv
      obtain ⟨s₂', b2, rest2, bfin2, hexec2, hmv3, hpair2⟩ := moveSnakes_cons_alive h2a hmv2
      rw [moveSnakes_nil] at hmv3
      simp only [Option.some.injEq, Prod.mk.injEq] at hmv3 hpair2 hpair1
      have hsnakes1 : snakes1 = [s₁', s₂'] := by
        rw [hpair1.1, hpair2.1, ← hmv3.1]
      have hboard1 : board1 = b2 := by
        rw [hpair1.2, hpair2.2, ← hmv3.2]
      rw [hsnakes1, hboard1] at hstep
      -- facts about the two executed moves
      obtain ⟨hid1, halive1, hhead1, hcell1, hin1, _⟩ :=
        execute_action_move_facts s₁ _ a₁ s₁' b1 hd₁ nc₁ h1a hhd₁ hnc₁ hexec1
      obtain ⟨hid2, halive2, hhead2, hcell2, hin2, hjd2⟩ :=
        execute_action_move_facts s₂ b1 a₂ s₂' b2 hd₂ nc₂ h2a hhd₂ hnc₂ hexec2
      have hcnf1 : b1.cells nc₂.to_pos = Cell.SnakeHead s₁.state.id := by
        rw [← hXeq]; exact hcell1
      have hinX2 : 0 ≤ nc₂.to_pos ∧ nc₂.to_pos < BOARD_WIDTH * BOARD_HEIGHT := by
        rw [← hXeq]; exact hin1
      have hfree2 : b1.is_coord_free_or_food nc₂ = some false :=
        is_coord_free_or_food_of_head hcnf1 hinX2
      have hjdied2 : s₂'.just_died = true := hjd2 hfree2
      -- the head-collision re-scan
      split at hstep
      · exact Option.noConfusion hstep
      · rename_i snakes2 hscan
        obtain ⟨t₁, rscan, hscan1, hscan2, hout⟩ := scanSnakes_cons hscan
        obtain ⟨t₂, rscan2, hscan3, hscan4, hout2⟩ := scanSnakes_cons hscan2
        rw [scanSnakes_nil] at hscan4
        simp only [Option.some.injEq] at hscan4
        subst hscan4
        subst hout2 hout
        have ht₁ : t₁ = { s₁' with just_died := true } := by
          have hcB1 : b2.cells nc₁.to_pos = Cell.SnakeHead s₂.state.id := by
            rw [hXeq]; exact hcell2
          have hne1 : s₂.state.id ≠ s₁'.state.id := by rw [hid1]; exact Ne.symm hne
          have hmark := scanHeadCollision_marks halive1 hhead1 hin1 hcB1 hne1
          rw [hmark] at hscan1
          simp only [Option.some.injEq] at hscan1
          exact hscan1.symm
        have ht₂ : t₂ = s₂' := by
          have hown := scanHeadCollision_own halive2 hhead2 hin2 hcell2 hid2.symm
          rw [hown] at hscan3
          simp only [Option.some.injEq] at hscan3
          exact hscan3.symm
        subst ht₁ ht₂
        -- the dead-snake removal
        split at hstep
        · exact Option.noConfusion hstep
        · rename_i snakes3 board2 hrm
          obtain ⟨bc1, rrm1, brm1, hclear1, hrm2, hout3⟩ := removeDead_cons_dead rfl hrm
          obtain ⟨bc2, rrm2, brm2, hclear2, hrm3, hout4⟩ :=
            removeDead_cons_dead hjdied2 hrm2
          rw [removeDead_nil] at hrm3
          simp only [Option.some.injEq, Prod.mk.injEq] at hrm3
          obtain ⟨hr2, hb2⟩ := hrm3
          subst hr2 hb2
          simp only [Prod.mk.injEq] at hout4
          obtain ⟨hr1, hbeq⟩ := hout4
          subst hr1 hbeq
          simp only [Prod.mk.injEq] at hout3
          obtain ⟨hsn3, hbd2⟩ := hout3
          subst hsn3 hbd2
          -- results and board update do not touch the snakes
          split at hstep
          · exact Option.noConfusion hstep
          · rename_i results1 hcr
            split at hstep
            · exact Option.noConfusion hstep
            · rename_i board3 hup
              simp only [Option.some.injEq] at hstep
              subst hstep
              intro u hu
              simp only [List.mem_cons, List.not_mem_nil, or_false] at hu
              rcases hu with hu | hu <;> rw [hu]

/-- Witness game for the amended C4: two length-1 snakes at (4,4) and (5,5),
both about to move onto the empty cell (5,4). -/
def gC4 : Game :=
  { board := { nb_free_cells := 510
               nb_alive_snakes := 2
               cells := fun p =>
                 if p = 132 then Cell.SnakeHead 0
                 else if p = 165 then Cell.SnakeHead 1
                 else Cell.Empty }
    snakes := [⟨⟨0, [132], Orientation.North, true⟩, false, 3⟩,
               ⟨⟨1, [165], Orientation.North, true⟩, false, 3⟩]
    initialized := true
    step := 0
    results := none
    lazy_simulation := true }

/-- Witness for the amended C4 at a concrete input: snake 0 turns Right and
snake 1 goes Front into the same empty cell 133, and both end the tick
dead. -/
theorem c4_amended_two_snake_symmetry_witness :
    ∃ g', gC4.stepOnce [Action.Right, Action.Front] none = some g' ∧
      ∀ u, u ∈ g'.snakes → u.state.alive = false := by
  have hsome : (gC4.stepOnce [Action.Right, Action.Front] none).isSome = true := rfl
  obtain ⟨g', hg⟩ := Option.isSome_iff_exists.mp hsome
  exact ⟨g', hg, c4_amended_two_snake_symmetry gC4 Action.Right Action.Front none g'
    _ _ 132 165 ⟨5, 4⟩ ⟨5, 4⟩ rfl rfl rfl (by decide) rfl rfl (by decide) (by decide)
    rfl rfl hg⟩

/-! ### The per-cell ownership invariant of reachable states.

`snakeCellOwned` (every snake-valued cell belongs to a live snake with that
id whose body contains the position) is an invariant of every reachable
state. The next block proves its preservation through each phase of a tick
and through initialisation. -/

theorem snakeCellValue_inj {i j : Nat} {c : Cell}
    (hi : snakeCellValue i c) (hj : snakeCellValue j c) : i = j := by
  rcases hi with h | h | h <;> rcases hj with h' | h' | h' <;>
    (rw [h] at h'; cases h') <;> rfl

theorem snakeCellValue_not_empty {i : Nat} (h : snakeCellValue i Cell.Empty) : False := by
  rcases h with h | h | h <;> cases h

theorem snakeCellValue_not_food {i : Nat} (h : snakeCellValue i Cell.Food) : False := by
  rcases h with h | h | h <;> cases h

theorem snakeCellValue_not_obstacle {i : Nat} (h : snakeCellValue i Cell.Obstacle) : False := by
  rcases h with h | h | h <;> cases h

theorem mem_of_getLast?_eq {l : List Int} {z : Int} (h : l.getLast? = some z) : z ∈ l := by
  induction l with
  | nil => cases h
  | cons a t ih =>
    cases t with
    | nil =>
      simp only [List.getLast?_singleton, Option.some.injEq] at h
      simp [h]
    | cons b t' =>
      rw [List.getLast?_cons_cons] at h
      exact List.mem_cons_of_mem a (ih h)

theorem mem_dropLast_or_getLast? {l : List Int} {a : Int} (ha : a ∈ l) :
    a ∈ l.dropLast ∨ l.getLast? = some a := by
  induction l with
  | nil => cases ha
  | cons x t ih =>
    cases t with
    | nil =>
      simp only [List.mem_singleton] at ha
      right
      simp [ha]
    | cons y t' =>
      rw [List.getLast?_cons_cons]
      rcases List.mem_cons.mp ha with h | h
      · left
        rw [h, List.dropLast_cons₂]
        exact List.mem_cons_self _ _
      · rcases ih h with h' | h'
        · left
          rw [List.dropLast_cons₂]
          exact List.mem_cons_of_mem _ h'
        · right
          exact h'

theorem mem_of_head?_eq {l : List Int} {z : Int} (h : l.head? = some z) : z ∈ l := by
  cases l with
  | nil => cases h
  | cons a t =>
    simp only [List.head?_cons, Option.some.injEq] at h
    simp [h]

/-- `clearPositions` leaves every cell either `Empty` or untouched (cells
outside the cleared list are untouched). -/
theorem clearPositions_cells :
    ∀ (ps : List Int) (b b' : GameBoard), clearPositions b ps = some b' →
      ∀ p, b'.cells p = Cell.Empty ∨ (p ∉ ps ∧ b'.cells p = b.cells p) := by
  intro ps
  induction ps with
  | nil =>
    intro b b' h p
    unfold clearPositions at h
    simp only [Option.some.injEq] at h
    subst h
    right
    exact ⟨List.not_mem_nil p, rfl⟩
  | cons q qs ih =>
    intro b b' h p
    unfold clearPositions at h
    split at h
    · exact Option.noConfusion h
    · rename_i b₁ hset
      rcases ih b₁ b' h p with hE | ⟨hnm, heq⟩
      · exact Or.inl hE
      · by_cases hpq : p = q
        · subst hpq
          left
          rw [heq, (set_tile_at_pos_eq_some hset).1]
        · right
          refine ⟨?_, by rw [heq, (set_tile_at_pos_eq_some hset).2.1 p hpq]⟩
          simp only [List.mem_cons, not_or]
          exact ⟨hpq, hnm⟩

/-- Every position a `clearPositions` clears reads `Empty` afterwards when
it occurs in the cleared list. -/
theorem clearPositions_clears :
    ∀ (ps : List Int) (b b' : GameBoard), clearPositions b ps = some b' →
      ∀ p, p ∈ ps → b'.cells p = Cell.Empty := by
  intro ps b b' h p hp
  rcases clearPositions_cells ps b b' h p with hE | ⟨hnm, _⟩
  · exact hE
  · exact absurd hp hnm

/-- `GameBoard.update` (recount + food draw) only ever turns a cell into
`Food`; every other cell is untouched. -/
theorem update_cells {b : GameBoard} {choice : Option Coordinate} {b' : GameBoard}
    (h : b.update choice = some b') :
    ∀ p, b'.cells p = b.cells p ∨ b'.cells p = Cell.Food := by
  unfold GameBoard.update GameBoard.update_food at h
  dsimp only at h
  intro p
  split at h
  · simp only [Option.some.injEq] at h
    subst h
    exact Or.inl rfl
  · rename_i coord
    split at h
    · exact Option.noConfusion h
    · rename_i free hfree
      split at h
      · by_cases hp : p = coord.to_pos
        · subst hp
          exact Or.inr (set_tile_at_pos_eq_some h).1
        · rw [(set_tile_at_pos_eq_some h).2.1 p hp]
          exact Or.inl rfl
      · simp only [Option.some.injEq] at h
        subst h
        exact Or.inl rfl

/-- Generic preservation of a predicate under `List.foldl`. -/
theorem foldl_preserve {α β : Type} (P : β → Prop) {f : β → α → β}
    (hstep : ∀ b a, P b → P (f b a)) :
    ∀ (l : List α) (b : β), P b → P (l.foldl f b) := by
  intro l
  induction l with
  | nil => intro b hb; exact hb
  | cons a t ih => intro b hb; exact ih (f b a) (hstep b a hb)

/-- The freshly constructed board (obstacles only) stores no snake cells. -/
theorem new_board_no_snake (draws : List (Int × Int × Int)) :
    ∀ p i, ¬ snakeCellValue i ((Game.new draws).board.cells p) := by
  have hblock : ∀ (b : GameBoard) (w x y : Int),
      (∀ p i, ¬ snakeCellValue i (b.cells p)) →
      ∀ p i, ¬ snakeCellValue i ((addObstacleBlock b w x y).cells p) := by
    intro b w x y hb
    unfold addObstacleBlock
    refine foldl_preserve (fun b => ∀ p i, ¬ snakeCellValue i (b.cells p)) ?_ _ b hb
    intro b₁ i h1
    refine foldl_preserve (fun b => ∀ p i, ¬ snakeCellValue i (b.cells p)) ?_ _ b₁ h1
    intro b₂ j h2 p k
    dsimp only
    split
    · exact snakeCellValue_not_obstacle
    · exact h2 p k
  show ∀ p i, ¬ snakeCellValue i ((add_random_obstacles GameBoard.new draws).cells p)
  unfold add_random_obstacles
  refine foldl_preserve (fun b => ∀ p i, ¬ snakeCellValue i (b.cells p)) ?_ draws
    GameBoard.new ?_
  · intro b d hb
    exact hblock b d.1 d.2.1 d.2.2 hb
  · intro p i h
    exact snakeCellValue_not_empty h

/-- `addSnakes` keeps the board and produces only fresh snakes (besides the
ones already present). -/
theorem addSnakes_facts :
    ∀ (ids : List Nat) (g g' : Game), addSnakes g ids = some g' →
      g'.board = g.board ∧
      ∀ s, s ∈ g'.snakes → s ∈ g.snakes ∨ ∃ i, s = Snake.new i := by
  intro ids
  induction ids with
  | nil =>
    intro g g' h
    unfold addSnakes at h
    simp only [Option.some.injEq] at h
    subst h
    exact ⟨rfl, fun s hs => Or.inl hs⟩
  | cons i rest ih =>
    intro g g' h
    unfold addSnakes at h
    split at h
    · exact Option.noConfusion h
    · rename_i g₁ hadd
      unfold Game.add_snake at hadd
      split at hadd
      · exact Option.noConfusion hadd
      · simp only [Option.some.injEq] at hadd
        subst hadd
        obtain ⟨hb, hmem⟩ := ih _ g' h
        refine ⟨hb, fun s hs => ?_⟩
        rcases hmem s hs with hs' | hs'
        · simp only [List.mem_append, List.mem_singleton] at hs'
          rcases hs' with hs' | hs'
          · exact Or.inl hs'
          · exact Or.inr ⟨i, hs'⟩
        · exact Or.inr hs'

/-- The `if free then s else mark s` step keeps the snake's state. -/
theorem markdead_state (c : Prop) [inst : Decidable c] (s : Snake) :
    (if c then s else { s with just_died := true }).state = s.state := by
  split <;> rfl

/-- The `if free then s else mark s` step keeps the growth counter. -/
theorem markdead_growth (c : Prop) [inst : Decidable c] (s : Snake) :
    (if c then s else { s with just_died := true }).growth_state = s.growth_state := by
  split <;> rfl

/-- Pointwise effect of one executed move, as needed for the per-cell
ownership invariant: the id is kept, the snake stays alive-flagged, each
cell is untouched, cleared to `Empty`, or written with one of the snake's
own cell values at a position of its new body; old body positions survive
into the new body unless their cell was cleared; and the growth counter
stays within `[1, GROWTH_RATE]`. -/
theorem execute_action_owned :
    ∀ (s : Snake) (b : GameBoard) (a : Action) (s' : Snake) (b' : GameBoard),
      s.state.alive = true →
      s.execute_action b a = some (s', b') →
      s'.state.id = s.state.id ∧ s'.state.alive = true ∧
      (∀ p, b'.cells p = b.cells p ∨ b'.cells p = Cell.Empty ∨
         (snakeCellValue s.state.id (b'.cells p) ∧ p ∈ s'.state.positions)) ∧
      (∀ p, p ∈ s.state.positions → p ∈ s'.state.positions ∨ b'.cells p = Cell.Empty) ∧
      (1 ≤ s.growth_state → s.growth_state ≤ 3 →
        1 ≤ s'.growth_state ∧ s'.growth_state ≤ 3) := by
  intro s b a s' b' halive hexec
  unfold Snake.execute_action at hexec
  rw [halive] at hexec
  simp only [Bool.true_eq_false, if_false] at hexec
  split at hexec
  · exact Option.noConfusion hexec
  · rename_i hd hhd
    split at hexec
    · -- out-of-bounds destination: only the current head cell changes
      simp only [Option.map_eq_some'] at hexec
      obtain ⟨b₁, hset, hpair⟩ := hexec
      simp only [Prod.mk.injEq] at hpair
      obtain ⟨hs', hb'⟩ := hpair
      subst hs' hb'
      refine ⟨rfl, halive, ?_, ?_, fun h1 h2 => ⟨h1, h2⟩⟩
      · intro p
        by_cases hp : p = hd
        · subst hp
          exact Or.inr (Or.inr ⟨Or.inr (Or.inl (set_tile_at_pos_eq_some hset).1),
            mem_of_head?_eq hhd⟩)
        · rw [(set_tile_at_pos_eq_some hset).2.1 p hp]
          exact Or.inl rfl
      · intro p hp
        exact Or.inl hp
    · -- in-bounds destination: the full movement bookkeeping
      rename_i nc hnc
      split at hexec
      · exact Option.noConfusion hexec
      · rename_i free hfree
        simp only [markdead_state, markdead_growth] at hexec
        split at hexec
        · exact Option.noConfusion hexec
        · rename_i next_pos_type hget
          split at hexec
          · exact Option.noConfusion hexec
          · rename_i hgpos
            split at hexec
            · exact Option.noConfusion hexec
            · rename_i b1 hb1
              split at hexec
              · exact Option.noConfusion hexec
              · rename_i positions2 b2 hshrink
                split at hexec
                · exact Option.noConfusion hexec
                · rename_i back_pos hback
                  split at hexec
                  · exact Option.noConfusion hexec
                  · rename_i b3 hb3
                    split at hexec
                    · exact Option.noConfusion hexec
                    · rename_i b4 hb4
                      simp only [Option.some.injEq, Prod.mk.injEq] at hexec
                      obtain ⟨hs', hb'⟩ := hexec
                      subst hs' hb'
                      -- characterise the shrink step
                      have hb2cases :
                          (positions2 = nc.to_pos :: s.state.positions ∧
                             ∀ p, b2.cells p = b1.cells p) ∨
                          (∃ tp, (nc.to_pos :: s.state.positions).getLast? = some tp ∧
                             positions2 = (nc.to_pos :: s.state.positions).dropLast ∧
                             b2.cells tp = Cell.Empty ∧
                             ∀ p, p ≠ tp → b2.cells p = b1.cells p) := by
                        split at hshrink
                        · split at hshrink
                          · rename_i tp htp
                            simp only [Option.map_eq_some'] at hshrink
                            obtain ⟨bmid, hsetE, hpair⟩ := hshrink
                            simp only [Prod.mk.injEq] at hpair
                            obtain ⟨hpos, hbm⟩ := hpair
                            right
                            refine ⟨tp, htp, hpos.symm, ?_, ?_⟩
                            · rw [← hbm]; exact (set_tile_at_pos_eq_some hsetE).1
                            · intro p hp
                              rw [← hbm]
                              exact (set_tile_at_pos_eq_some hsetE).2.1 p hp
                          · rename_i htp
                            obtain ⟨z, hz⟩ := cons_getLast?_eq_some nc.to_pos s.state.positions
                            rw [hz] at htp
                            cases htp
                        · simp only [Option.some.injEq, Prod.mk.injEq] at hshrink
                          obtain ⟨hpos, hbm⟩ := hshrink
                          left
                          refine ⟨hpos.symm, fun p => by rw [← hbm]⟩
                      have hpos2 : positions2.head? = some nc.to_pos := by
                        rcases hb2cases with ⟨hpos, _⟩ | ⟨tp, htp, hpos, _, _⟩
                        · rw [hpos]; rfl
                        · rw [hpos]
                          obtain ⟨hd2, tl2, hcons⟩ :
                              ∃ hd2 tl2, s.state.positions = hd2 :: tl2 := by
                            cases hps : s.state.positions with
                            | nil => rw [hps] at hhd; cases hhd
                            | cons x xs => exact ⟨x, xs, rfl⟩
                          rw [hcons]
                          exact head?_dropLast_cons_cons _ _ _
                      refine ⟨rfl, halive, ?_, ?_, ?_⟩
                      · -- pointwise cell analysis
                        intro p
                        by_cases hp4 : p = nc.to_pos
                        · subst hp4
                          exact Or.inr (Or.inr ⟨Or.inl (set_tile_at_pos_eq_some hb4).1,
                            mem_of_head?_eq hpos2⟩)
                        · have hc4 : b4.cells p = b3.cells p :=
                            (set_tile_at_pos_eq_some hb4).2.1 p hp4
                          by_cases hp3 : p = back_pos
                          · rw [hc4, hp3, (set_tile_at_pos_eq_some hb3).1]
                            exact Or.inr (Or.inr ⟨Or.inr (Or.inr rfl),
                              mem_of_getLast?_eq hback⟩)
                          · have hc3 : b3.cells p = b2.cells p :=
                              (set_tile_at_pos_eq_some hb3).2.1 p hp3
                            rcases hb2cases with ⟨hpos, hb2all⟩ |
                              ⟨tp, htp, hpos, htpE, hb2ne⟩
                            · by_cases hp1 : p = hd
                              · rw [hc4, hc3, hb2all, hp1, (set_tile_at_pos_eq_some hb1).1]
                                refine Or.inr (Or.inr ⟨Or.inr (Or.inl rfl), ?_⟩)
                                rw [← hp1, hpos]
                                exact List.mem_cons_of_mem _ (hp1 ▸ mem_of_head?_eq hhd)
                              · rw [hc4, hc3, hb2all,
                                  (set_tile_at_pos_eq_some hb1).2.1 p hp1]
                                exact Or.inl rfl
                            · by_cases hptp : p = tp
                              · rw [hc4, hc3, hptp, htpE]
                                exact Or.inr (Or.inl rfl)
                              · have hc2 : b2.cells p = b1.cells p := hb2ne p hptp
                                by_cases hp1 : p = hd
                                · rw [hc4, hc3, hc2, hp1, (set_tile_at_pos_eq_some hb1).1]
                                  refine Or.inr (Or.inr ⟨Or.inr (Or.inl rfl), ?_⟩)
                                  rw [← hp1, hpos]
                                  have hmem : p ∈ nc.to_pos :: s.state.positions :=
                                    List.mem_cons_of_mem _ (hp1 ▸ mem_of_head?_eq hhd)
                                  rcases mem_dropLast_or_getLast? hmem with hm | hm
                                  · exact hm
                                  · rw [htp] at hm
                                    injection hm with hm'
                                    exact absurd hm'.symm hptp
                                · rw [hc4, hc3, hc2,
                                    (set_tile_at_pos_eq_some hb1).2.1 p hp1]
                                  exact Or.inl rfl
                      · -- old body positions survive or are cleared
                        intro p hp
                        rcases hb2cases with ⟨hpos, _⟩ | ⟨tp, htp, hpos, htpE, hb2ne⟩
                        · left
                          rw [hpos]
                          exact List.mem_cons_of_mem _ hp
                        · have hmem : p ∈ nc.to_pos :: s.state.positions :=
                            List.mem_cons_of_mem _ hp
                          rcases mem_dropLast_or_getLast? hmem with hm | hm
                          · left
                            rw [hpos]
                            exact hm
                          · rw [htp] at hm
                            injection hm with hm'
                            by_cases hp4 : p = nc.to_pos
                            · left
                              rw [hp4]
                              exact mem_of_head?_eq hpos2
                            · by_cases hp3 : p = back_pos
                              · left
                                rw [hp3]
                                exact mem_of_getLast?_eq hback
                              · right
                                rw [(set_tile_at_pos_eq_some hb4).2.1 p hp4,
                                  (set_tile_at_pos_eq_some hb3).2.1 p hp3, ← hm', htpE]
                      · -- growth counter bounds
                        intro h1 h2
                        constructor
                        · dsimp only
                          unfold Snake.GROWTH_RATE
                          split
                          · omega
                          · rename_i hnz
                            simp only [decide_eq_true_eq] at hnz
                            omega
                        · dsimp only
                          unfold Snake.GROWTH_RATE
                          split
                          · omega
                          · rename_i hnz
                            simp only [decide_eq_true_eq] at hnz
                            omega

/-- The movement loop preserves per-cell ownership (with an arbitrary frame
of untouched snakes) and maps each output snake to an input snake with the
same id, alive flag, and in-bounds growth counter. -/
theorem moveSnakes_owned :
    ∀ (ss : List Snake) (acts : List Action) (b : GameBoard) (frame : List Snake)
      (ss' : List Snake) (b' : GameBoard),
      moveSnakes ss acts b = some (ss', b') →
      snakeCellOwned (frame ++ ss) b →
      snakeCellOwned (frame ++ ss') b' ∧
      ∀ u ∈ ss', ∃ t ∈ ss, u.state.id = t.state.id ∧ u.state.alive = t.state.alive ∧
        ((1 ≤ t.growth_state ∧ t.growth_state ≤ 3) →
          (1 ≤ u.growth_state ∧ u.growth_state ≤ 3)) := by
  intro ss
  induction ss with
  | nil =>
    intro acts b frame ss' b' h howned
    unfold moveSnakes at h
    simp only [Option.some.injEq, Prod.mk.injEq] at h
    obtain ⟨h1, h2⟩ := h
    subst h1 h2
    exact ⟨howned, fun u hu => absurd hu (List.not_mem_nil u)⟩
  | cons s rest ih =>
    intro acts b frame ss' b' h howned
    unfold moveSnakes at h
    split at h
    case isTrue halive =>
      split at h
      · -- actions exhausted: this snake does not move
        split at h
        · exact Option.noConfusion h
        · rename_i rest' b'' hrec
          simp only [Option.some.injEq, Prod.mk.injEq] at h
          obtain ⟨h1, h2⟩ := h
          subst h1 h2
          have howned' : snakeCellOwned ((frame ++ [s]) ++ rest) b := by
            rwa [List.append_assoc, List.singleton_append]
          obtain ⟨ho, hf⟩ := ih [] b (frame ++ [s]) rest' b'' hrec howned'
          refine ⟨by rwa [List.append_assoc, List.singleton_append] at ho, ?_⟩
          intro u hu
          rcases List.mem_cons.mp hu with hu | hu
          · subst hu
            exact ⟨u, List.mem_cons_self _ _, rfl, rfl, fun h => h⟩
          · obtain ⟨t, ht, h1, h2, h3⟩ := hf u hu
            exact ⟨t, List.mem_cons_of_mem _ ht, h1, h2, h3⟩
      · -- this snake executes its action
        rename_i a acts'
        split at h
        · exact Option.noConfusion h
        · rename_i s₁ b₁ hexec
          split at h
          · exact Option.noConfusion h
          · rename_i rest' b'' hrec
            simp only [Option.some.injEq, Prod.mk.injEq] at h
            obtain ⟨h1, h2⟩ := h
            subst h1 h2
            obtain ⟨hid, halive', hcells, hkeep, hgrow⟩ :=
              execute_action_owned s b a s₁ b₁ halive hexec
            have howned1 : snakeCellOwned ((frame ++ [s₁]) ++ rest) b₁ := by
              rw [List.append_assoc, List.singleton_append]
              intro p i hsv
              rcases hcells p with hsame | hE | ⟨hsvs, hmem⟩
              · have hsv' := hsv
                rw [hsame] at hsv'
                obtain ⟨u, hu, huid, hual, hupos⟩ := howned p i hsv'
                rcases List.mem_append.mp hu with hu | hu
                · exact ⟨u, List.mem_append.mpr (Or.inl hu), huid, hual, hupos⟩
                · rcases List.mem_cons.mp hu with hu | hu
                  · subst hu
                    rcases hkeep p hupos with hmemp | hEp
                    · exact ⟨s₁,
                        List.mem_append.mpr (Or.inr (List.mem_cons_self _ _)),
                        hid.trans huid, halive', hmemp⟩
                    · rw [hEp] at hsv
                      exact absurd hsv snakeCellValue_not_empty
                  · exact ⟨u,
                      List.mem_append.mpr (Or.inr (List.mem_cons_of_mem _ hu)),
                      huid, hual, hupos⟩
              · rw [hE] at hsv
                exact absurd hsv snakeCellValue_not_empty
              · have hidi : s.state.id = i := snakeCellValue_inj hsvs hsv
                exact ⟨s₁, List.mem_append.mpr (Or.inr (List.mem_cons_self _ _)),
                  hid.trans hidi, halive', hmem⟩
            obtain ⟨ho, hf⟩ := ih acts' b₁ (frame ++ [s₁]) rest' b'' hrec howned1
            refine ⟨by rwa [List.append_assoc, List.singleton_append] at ho, ?_⟩
            intro u hu
            rcases List.mem_cons.mp hu with hu | hu
            · subst hu
              exact ⟨s, List.mem_cons_self _ _, hid, halive'.trans halive.symm,
                fun hb => hgrow hb.1 hb.2⟩
            · obtain ⟨t, ht, h1, h2, h3⟩ := hf u hu
              exact ⟨t, List.mem_cons_of_mem _ ht, h1, h2, h3⟩
    case isFalse hdead =>
      split at h
      · exact Option.noConfusion h
      · rename_i rest' b'' hrec
        simp only [Option.some.injEq, Prod.mk.injEq] at h
        obtain ⟨h1, h2⟩ := h
        subst h1 h2
        have howned' : snakeCellOwned ((frame ++ [s]) ++ rest) b := by
          rwa [List.append_assoc, List.singleton_append]
        obtain ⟨ho, hf⟩ := ih acts b (frame ++ [s]) rest' b'' hrec howned'
        refine ⟨by rwa [List.append_assoc, List.singleton_append] at ho, ?_⟩
        intro u hu
        rcases List.mem_cons.mp hu with hu | hu
        · subst hu
          exact ⟨u, List.mem_cons_self _ _, rfl, rfl, fun h => h⟩
        · obtain ⟨t, ht, h1, h2, h3⟩ := hf u hu
          exact ⟨t, List.mem_cons_of_mem _ ht, h1, h2, h3⟩

/-- The head-collision re-scan changes only the `just_died` flag. -/
theorem scanHeadCollision_fields {b : GameBoard} {s s' : Snake}
    (h : scanHeadCollision b s = some s') :
    s'.state = s.state ∧ s'.growth_state = s.growth_state := by
  unfold scanHeadCollision at h
  repeat' split at h
  all_goals first
    | exact Option.noConfusion h
    | (simp only [Option.some.injEq] at h; subst h; exact ⟨rfl, rfl⟩)

/-- The re-scan over a list maps states and growth counters bijectively. -/
theorem scanSnakes_fields :
    ∀ (ss : List Snake) (b : GameBoard) (ss' : List Snake),
      scanSnakes b ss = some ss' →
      (∀ u ∈ ss', ∃ t ∈ ss, u.state = t.state ∧ u.growth_state = t.growth_state) ∧
      (∀ t ∈ ss, ∃ u ∈ ss', u.state = t.state ∧ u.growth_state = t.growth_state) := by
  intro ss
  induction ss with
  | nil =>
    intro b ss' h
    unfold scanSnakes at h
    simp only [Option.some.injEq] at h
    subst h
    exact ⟨fun u hu => absurd hu (List.not_mem_nil u),
           fun t ht => absurd ht (List.not_mem_nil t)⟩
  | cons s rest ih =>
    intro b ss' h
    obtain ⟨s', rest', hscan, hrest, hout⟩ := scanSnakes_cons h
    subst hout
    obtain ⟨hst, hgr⟩ := scanHeadCollision_fields hscan
    obtain ⟨hfwd, hbwd⟩ := ih b rest' hrest
    constructor
    · intro u hu
      rcases List.mem_cons.mp hu with hu | hu
      · exact ⟨s, List.mem_cons_self _ _, by rw [hu]; exact hst, by rw [hu]; exact hgr⟩
      · obtain ⟨t, ht, h1, h2⟩ := hfwd u hu
        exact ⟨t, List.mem_cons_of_mem _ ht, h1, h2⟩
    · intro t ht
      rcases List.mem_cons.mp ht with ht | ht
      · exact ⟨s', List.mem_cons_self _ _, by rw [ht]; exact hst, by rw [ht]; exact hgr⟩
      · obtain ⟨u, hu, h1, h2⟩ := hbwd t ht
        exact ⟨u, List.mem_cons_of_mem _ hu, h1, h2⟩

/-- Ownership survives the re-scan (the board is untouched; owners keep
their state). -/
theorem scanSnakes_owned {board b : GameBoard} {ss ss' : List Snake}
    (h : scanSnakes board ss = some ss') (howned : snakeCellOwned ss b) :
    snakeCellOwned ss' b := by
  intro p i hsv
  obtain ⟨u, hu, huid, hual, hupos⟩ := howned p i hsv
  obtain ⟨u', hu', h1, h2⟩ := (scanSnakes_fields ss board ss' h).2 u hu
  exact ⟨u', hu', by rw [h1]; exact huid, by rw [h1]; exact hual,
    by rw [h1]; exact hupos⟩

/-- Ownership is monotone in the snake list. -/
theorem snakeCellOwned_mono {ss tt : List Snake} {b : GameBoard}
    (hsub : ∀ s, s ∈ ss → s ∈ tt) (h : snakeCellOwned ss b) : snakeCellOwned tt b := by
  intro p i hsv
  obtain ⟨u, hu, hrest⟩ := h p i hsv
  exact ⟨u, hsub u hu, hrest⟩

/-- The dead-snake removal preserves per-cell ownership: a removed snake's
cells are cleared (so they need no owner), and surviving cells keep their
surviving owners. Each output snake keeps some input snake's id and growth
counter. -/
theorem removeDead_owned :
    ∀ (ss : List Snake) (b : GameBoard) (frame : List Snake) (ss' : List Snake)
      (b' : GameBoard),
      removeDead ss b = some (ss', b') →
      snakeCellOwned (frame ++ ss) b →
      snakeCellOwned (frame ++ ss') b' ∧
      ∀ u ∈ ss', ∃ t ∈ ss, u.growth_state = t.growth_state := by
  intro ss
  induction ss with
  | nil =>
    intro b frame ss' b' h howned
    unfold removeDead at h
    simp only [Option.some.injEq, Prod.mk.injEq] at h
    obtain ⟨h1, h2⟩ := h
    subst h1 h2
    exact ⟨howned, fun u hu => absurd hu (List.not_mem_nil u)⟩
  | cons s rest ih =>
    intro b frame ss' b' h howned
    unfold removeDead at h
    split at h
    case isTrue hjd =>
      split at h
      · exact Option.noConfusion h
      · rename_i b₁ hclear
        split at h
        · exact Option.noConfusion h
        · rename_i rest' b'' hrec
          simp only [Option.some.injEq, Prod.mk.injEq] at h
          obtain ⟨h1, h2⟩ := h
          subst h1 h2
          have howned1 : snakeCellOwned (frame ++ rest) b₁ := by
            intro p i hsv
            rcases clearPositions_cells s.state.positions b b₁ hclear p with hE | ⟨hnm, heq⟩
            · rw [hE] at hsv
              exact absurd hsv snakeCellValue_not_empty
            · rw [heq] at hsv
              obtain ⟨u, hu, huid, hual, hupos⟩ := howned p i hsv
              rcases List.mem_append.mp hu with hu | hu
              · exact ⟨u, List.mem_append.mpr (Or.inl hu), huid, hual, hupos⟩
              · rcases List.mem_cons.mp hu with hu | hu
                · subst hu
                  exact absurd hupos hnm
                · exact ⟨u, List.mem_append.mpr (Or.inr hu), huid, hual, hupos⟩
          obtain ⟨ho, hf⟩ := ih b₁ frame rest' b'' hrec howned1
          refine ⟨snakeCellOwned_mono ?_ ho, ?_⟩
          · intro x hx
            rcases List.mem_append.mp hx with hx | hx
            · exact List.mem_append.mpr (Or.inl hx)
            · exact List.mem_append.mpr (Or.inr (List.mem_cons_of_mem _ hx))
          · intro u hu
            rcases List.mem_cons.mp hu with hu | hu
            · subst hu
              exact ⟨s, List.mem_cons_self _ _, rfl⟩
            · obtain ⟨t, ht, h1⟩ := hf u hu
              exact ⟨t, List.mem_cons_of_mem _ ht, h1⟩
    case isFalse hjd =>
      split at h
      · exact Option.noConfusion h
      · rename_i rest' b'' hrec
        simp only [Option.some.injEq, Prod.mk.injEq] at h
        obtain ⟨h1, h2⟩ := h
        subst h1 h2
        have howned' : snakeCellOwned ((frame ++ [s]) ++ rest) b := by
          rwa [List.append_assoc, List.singleton_append]
        obtain ⟨ho, hf⟩ := ih b (frame ++ [s]) rest' b'' hrec howned'
        refine ⟨by rwa [List.append_assoc, List.singleton_append] at ho, ?_⟩
        intro u hu
        rcases List.mem_cons.mp hu with hu | hu
        · subst hu
          exact ⟨u, List.mem_cons_self _ _, rfl⟩
        · obtain ⟨t, ht, h1⟩ := hf u hu
          exact ⟨t, List.mem_cons_of_mem _ ht, h1⟩

/-- The master invariant of reachable states: per-cell ownership plus the
growth-counter bounds. -/
def GameInv (g : Game) : Prop :=
  snakeCellOwned g.snakes g.board ∧
  ∀ s ∈ g.snakes, 1 ≤ s.growth_state ∧ s.growth_state ≤ 3

/-- One completed tick preserves the master invariant. -/
theorem stepOnce_inv :
    ∀ (g : Game) (acts : List Action) (food : Option Coordinate) (g' : Game),
      g.stepOnce acts food = some g' → GameInv g → GameInv g' := by
  intro g acts food g' hstep hinv
  obtain ⟨howned, hgrow⟩ := hinv
  unfold Game.stepOnce at hstep
  split at hstep
  · exact Option.noConfusion hstep
  · dsimp only at hstep
    split at hstep
    · exact Option.noConfusion hstep
    · rename_i snakes1 board1 hmv
      split at hstep
      · exact Option.noConfusion hstep
      · rename_i snakes2 hscan
        split at hstep
        · exact Option.noConfusion hstep
        · rename_i snakes3 board2 hrm
          split at hstep
          · exact Option.noConfusion hstep
          · rename_i results1 hcr
            split at hstep
            · exact Option.noConfusion hstep
            · rename_i board3 hup
              simp only [Option.some.injEq] at hstep
              subst hstep
              obtain ⟨ho1, hf1⟩ := moveSnakes_owned g.snakes acts _ [] snakes1 board1
                hmv (by rw [List.nil_append]; exact howned)
              rw [List.nil_append] at ho1
              have ho2 : snakeCellOwned snakes2 board1 := scanSnakes_owned hscan ho1
              obtain ⟨ho3, hf3⟩ := removeDead_owned snakes2 board1 [] snakes3 board2
                hrm (by rw [List.nil_append]; exact ho2)
              rw [List.nil_append] at ho3
              constructor
              · intro p i hsv
                rcases update_cells hup p with heq | hF
                · rw [heq] at hsv
                  exact ho3 p i hsv
                · rw [hF] at hsv
                  exact absurd hsv snakeCellValue_not_food
              · intro u hu
                obtain ⟨t2, ht2, hg2⟩ := hf3 u hu
                obtain ⟨t1, ht1, hst1, hg1⟩ := (scanSnakes_fields snakes1 board1
                  snakes2 hscan).1 t2 ht2
                obtain ⟨t0, ht0, _, _, hg0⟩ := hf1 t1 ht1
                rw [hg2, hg1]
                exact hg0 (hgrow t0 ht0)

/-- Snake placement preserves per-cell ownership (placed heads are owned by
the placed snakes) and keeps every snake's growth counter. -/
theorem placeSnakes_inv :
    ∀ (ss : List Snake) (ps : List Int) (b : GameBoard) (frame : List Snake)
      (ss' : List Snake) (b' : GameBoard),
      placeSnakes ss ps b = some (ss', b') →
      snakeCellOwned (frame ++ ss) b →
      (∀ s ∈ ss, s.state.alive = true) →
      snakeCellOwned (frame ++ ss') b' ∧
      ∀ u ∈ ss', ∃ t ∈ ss, u.growth_state = t.growth_state := by
  intro ss
  induction ss with
  | nil =>
    intro ps b frame ss' b' h howned _
    unfold placeSnakes at h
    simp only [Option.some.injEq, Prod.mk.injEq] at h
    obtain ⟨h1, h2⟩ := h
    subst h1 h2
    exact ⟨howned, fun u hu => absurd hu (List.not_mem_nil u)⟩
  | cons s rest ih =>
    intro ps b frame ss' b' h howned halive
    unfold placeSnakes at h
    split at h
    · exact Option.noConfusion h
    · rename_i p ps'
      split at h
      · exact Option.noConfusion h
      · rename_i t hget
        split at h
        · rename_i hfree
          dsimp only at h
          split at h
          · exact Option.noConfusion h
          · rename_i b₁ hset
            split at h
            · exact Option.noConfusion h
            · rename_i rest' b'' hrec
              simp only [Option.some.injEq, Prod.mk.injEq] at h
              obtain ⟨h1, h2⟩ := h
              subst h1 h2
              have howned1 : snakeCellOwned
                  ((frame ++ [{ s with state := { s.state with
                      positions := p :: s.state.positions,
                      current_orientation := Orientation.North } }]) ++ rest) b₁ := by
                rw [List.append_assoc, List.singleton_append]
                intro q i hsv
                by_cases hq : q = p
                · rw [hq, (set_tile_at_pos_eq_some hset).1] at hsv
                  rcases hsv with hsv | hsv | hsv
                  · injection hsv with hsv'
                    refine ⟨_, List.mem_append.mpr (Or.inr (List.mem_cons_self _ _)),
                      hsv', halive s (List.mem_cons_self _ _), ?_⟩
                    rw [hq]
                    exact List.mem_cons_self _ _
                  · cases hsv
                  · cases hsv
                · rw [(set_tile_at_pos_eq_some hset).2.1 q hq] at hsv
                  obtain ⟨u, hu, huid, hual, hupos⟩ := howned q i hsv
                  rcases List.mem_append.mp hu with hu | hu
                  · exact ⟨u, List.mem_append.mpr (Or.inl hu), huid, hual, hupos⟩
                  · rcases List.mem_cons.mp hu with hu | hu
                    · subst hu
                      exact ⟨_, List.mem_append.mpr (Or.inr (List.mem_cons_self _ _)),
                        huid, hual, List.mem_cons_of_mem _ hupos⟩
                    · exact ⟨u,
                        List.mem_append.mpr (Or.inr (List.mem_cons_of_mem _ hu)),
                        huid, hual, hupos⟩
              obtain ⟨ho, hf⟩ := ih ps' b₁ _ rest' b'' hrec howned1
                (fun u hu => halive u (List.mem_cons_of_mem _ hu))
              refine ⟨by rwa [List.append_assoc, List.singleton_append] at ho, ?_⟩
              intro u hu
              rcases List.mem_cons.mp hu with hu | hu
              · subst hu
                exact ⟨s, List.mem_cons_self _ _, rfl⟩
              · obtain ⟨t', ht', h1⟩ := hf u hu
                exact ⟨t', List.mem_cons_of_mem _ ht', h1⟩
        · exact Option.noConfusion h

/-- Every reachable game state satisfies the master invariant. -/
theorem reachable_inv : ∀ g, Reachable g → GameInv g := by
  intro g hr
  induction hr with
  | boot draws ids ps g₀ g hdraws hadd hinit =>
    obtain ⟨hb, hmem⟩ := addSnakes_facts ids _ g₀ hadd
    unfold Game.initGame at hinit
    split at hinit
    · exact Option.noConfusion hinit
    · rename_i ss b hplace
      simp only [Option.some.injEq] at hinit
      subst hinit
      have hfresh : ∀ s ∈ g₀.snakes, s.state.alive = true := by
        intro s hs
        rcases hmem s hs with hs' | ⟨i, hi⟩
        · exact absurd hs' (List.not_mem_nil s)
        · rw [hi]; rfl
      have howned0 : snakeCellOwned ([] ++ g₀.snakes) g₀.board := by
        rw [List.nil_append]
        intro p i hsv
        rw [hb] at hsv
        exact absurd hsv (new_board_no_snake draws p i)
      obtain ⟨ho, hgr⟩ := placeSnakes_inv g₀.snakes ps g₀.board [] ss b hplace
        howned0 hfresh
      rw [List.nil_append] at ho
      refine ⟨ho, ?_⟩
      intro s hs
      obtain ⟨t, ht, hgt⟩ := hgr s hs
      rcases hmem t ht with ht' | ⟨i, hi⟩
      · exact absurd ht' (List.not_mem_nil t)
      · rw [hgt, hi]
        exact ⟨by norm_num [Snake.new, Snake.GROWTH_RATE],
               by norm_num [Snake.new, Snake.GROWTH_RATE]⟩
  | tick g g' acts food hr hwf hstep ih =>
    exact stepOnce_inv g acts food g' hstep ih

/-- C2 amended: after every completed tick of a reachable game, every cell
holding `SnakeHead(id)`/`SnakeBody(id)`/`SnakeTail(id)` has its position in
the body sequence of a live snake with that id — but, unlike the original
claim, a position may simultaneously be claimed by two live snakes (the
counterexample exhibits such a tick). -/
theorem c2_amended_cell_ownership :
    ∀ (g : Game) (acts : List Action) (food : Option Coordinate) (g' : Game),
      Reachable g → foodWF food → g.stepOnce acts food = some g' →
      snakeCellOwned g'.snakes g'.board := by
  intro g acts food g' hr hwf hstep
  exact (reachable_inv g' (Reachable.tick g g' acts food hr hwf hstep)).1

/-- Witness for the amended C2 at a concrete input: the first tick of the
concrete run yields a board whose snake cells are all owned. -/
theorem c2_amended_cell_ownership_witness :
    ∃ g g', runGame 0 = some g ∧ g.stepOnce (actsAt 0) (foodAt 0) = some g' ∧
      snakeCellOwned g'.snakes g'.board := by
  have h0 : (runGame 0).isSome = true := rfl
  obtain ⟨g, hg⟩ := Option.isSome_iff_exists.mp h0
  have h1 : (runGame 1).isSome = true := rfl
  obtain ⟨g', hg'⟩ := Option.isSome_iff_exists.mp h1
  have h1eq : (match runGame 0 with
      | none => none
      | some g => g.stepOnce (actsAt 0) (foodAt 0)) = some g' := hg'
  rw [hg] at h1eq
  dsimp only at h1eq
  exact ⟨g, g', hg, h1eq, c2_amended_cell_ownership g (actsAt 0) (foodAt 0) g'
    (runGame_reachable 0 g hg) (foodAt_wf 0) h1eq⟩

/-! ### Claim C7: the growth countdown stays in [1, GROWTH_RATE]. -/

/-- C7: in every reachable game state, every alive snake's growth countdown
is strictly positive and never exceeds the growth constant 3 — each executed
move decrements it and immediately resets it to 3 when it hits zero, so the
value observed between ticks always lies in `[1, 3]`. -/
theorem c7_growth_countdown_invariant :
    ∀ g, Reachable g → ∀ s, s ∈ g.snakes → s.state.alive = true →
      1 ≤ s.growth_state ∧ s.growth_state ≤ 3 := by
  intro g hr s hs _
  exact (reachable_inv g hr).2 s hs

/-- Witness for C7 at a concrete input: after one tick of the concrete run,
the first snake is alive with growth counter 2 ∈ [1, 3]. -/
theorem c7_growth_countdown_invariant_witness :
    ∃ g s, runGame 1 = some g ∧ s ∈ g.snakes ∧ s.state.alive = true ∧
      1 ≤ s.growth_state ∧ s.growth_state ≤ 3 := by
  have h1 : (runGame 1).isSome = true := rfl
  obtain ⟨g, hg⟩ := Option.isSome_iff_exists.mp h1
  have hsn : ((runGame 1).map (fun g => g.snakes.get? 0)).getD none =
      some ⟨⟨0, [295], Orientation.North, true⟩, false, 2⟩ := rfl
  rw [hg] at hsn
  simp only [Option.map_some', Option.getD_some] at hsn
  exact ⟨g, _, hg, List.get?_mem hsn, rfl,
    c7_growth_countdown_invariant g (runGame_reachable 1 g hg) _ (List.get?_mem hsn) rfl⟩

/-! ### The heuristic bot's bounded BFS (`compute_stats_from`,
`heuristic_bot.rs` lines 127-237).

The statistics are `f64` in Rust but only ever hold sums of small integers
(exact in `f64`), modelled as `Int`; the final normalisation divisions are
modelled in `ℚ`. The fixed 512-slot queue array with its front/back indices
is modelled as a FIFO list: the `added` guard marks every enqueued position,
so at most `NB_CELLS` pushes (and hence pops) ever happen — the Rust array
never overflows and `NB_CELLS` units of fuel reproduce the loop exactly.
The ghost fields `head_seen`/`tail_seen` instrument the spec's notion of an
enemy head/tail being "encountered during the search"; they are set exactly
when the corresponding sum is incremented and never influence anything. -/

/-- `MAX_DEPTH` from `heuristic_bot.rs`. -/
def MAX_DEPTH : Int := 30

/-- `NB_CELLS` from `compute_stats_from`. -/
def NB_CELLS : Nat := (BOARD_WIDTH * BOARD_HEIGHT).toNat

/-- `board_diag_size`: the Rust code computes
`((W^2 + H^2) as f64).sqrt().ceil()` = ceil(sqrt(1280)) = ceil(35.777…),
which is exactly 36 in `f64`. -/
def board_diag_size : Int := 36

/-- The running statistics of the BFS, with the two ghost "encountered"
flags. -/
structure BfsStats where
  accessible_area : Int
  num_accessible_food : Int
  sum_dist_enemy_heads : Int
  sum_dist_enemy_tails : Int
  min_dist_to_food : Int
  head_seen : Bool
  tail_seen : Bool
  deriving DecidableEq, Repr

/-- The BFS working state: statistics, visited set, and FIFO fringe of
(position, distance) pairs. -/
structure BfsState where
  stats : BfsStats
  added : Int → Bool
  queue : List (Int × Int)

/-- Processing one 4-neighbour of a popped cell (`heuristic_bot.rs` lines
184-214): skipped when out of bounds or already added; an enemy head (tail)
adds the current distance to the head (tail) sum; Empty/Food neighbours are
enqueued with distance+1; every considered neighbour is marked added. -/
def bfs_visit_neighbor (snake_id : Nat) (board : GameBoard) (dist : Int)
    (st : BfsState) (coord : Coordinate) : Option BfsState :=
  let pos := coord.to_pos
  if ¬ coord.is_out_of_bounds ∧ st.added pos = false then
    match board.get_tile_at_pos pos with
    | none => none
    | some t =>
      let st' :=
        match t with
        | Cell.SnakeHead i =>
          if i ≠ snake_id then
            { st with stats := { st.stats with
                sum_dist_enemy_heads := st.stats.sum_dist_enemy_heads + dist
                head_seen := true } }
          else st
        | Cell.SnakeTail i =>
          if i ≠ snake_id then
            { st with stats := { st.stats with
                sum_dist_enemy_tails := st.stats.sum_dist_enemy_tails + dist
                tail_seen := true } }
          else st
        | Cell.Empty => { st with queue := st.queue ++ [(pos, dist + 1)] }
        | Cell.Food => { st with queue := st.queue ++ [(pos, dist + 1)] }
        | _ => st
      some { st' with added := fun q => if q = pos then true else st'.added q }
  else some st

/-- Processing one popped cell (`heuristic_bot.rs` lines 171-214): an
Empty/Food cell counts into the accessible area (Food also into the food
count and minimum food distance), then the 4 neighbours are visited in the
source's order (left, right, up, down). -/
def bfs_process (snake_id : Nat) (board : GameBoard) (pos dist : Int)
    (st : BfsState) : Option BfsState :=
  match board.get_tile_at_pos pos with
  | none => none
  | some t =>
    let st1 :=
      match t with
      | Cell.Empty => { st with stats := { st.stats with
          accessible_area := st.stats.accessible_area + 1 } }
      | Cell.Food => { st with stats := { st.stats with
          accessible_area := st.stats.accessible_area + 1
          num_accessible_food := st.stats.num_accessible_food + 1
          min_dist_to_food := min dist st.stats.min_dist_to_food } }
      | _ => st
    let c := Coordinate.from_pos pos
    List.foldlM (bfs_visit_neighbor snake_id board dist) st1
      [⟨c.x - 1, c.y⟩, ⟨c.x + 1, c.y⟩, ⟨c.x, c.y - 1⟩, ⟨c.x, c.y + 1⟩]

/-- The BFS main loop (`while queue_front < queue_back`): pop, break when
the popped distance exceeds `MAX_DEPTH`, otherwise process and continue. -/
def bfs_run (snake_id : Nat) (board : GameBoard) :
    Nat → BfsState → Option BfsState
  | 0, st => some st
  | fuel + 1, st =>
    match st.queue with
    | [] => some st
    | (pos, dist) :: rest =>
      if MAX_DEPTH < dist then some st
      else
        match bfs_process snake_id board pos dist { st with queue := rest } with
        | none => none
        | some st' => bfs_run snake_id board fuel st'

/-- `Stats` from `heuristic_bot.rs`: the five normalised statistics. -/
structure Stats where
  accessible_area : ℚ
  num_accessible_food : ℚ
  sum_dist_enemy_heads : ℚ
  sum_dist_enemy_tails : ℚ
  min_dist_to_food : ℚ
  deriving DecidableEq, Repr

/-- The full outcome of `compute_stats_from`: the raw sums accumulated by
the search, the enemy-distance sums after the sentinel substitution of
lines 217-224, and the normalised `Stats` the function returns. -/
structure StatsResult where
  raw : BfsStats
  sub_heads : Int
  sub_tails : Int
  norm : Stats
  deriving DecidableEq, Repr

/-- `compute_stats_from` from `heuristic_bot.rs`: seed the queue with the
candidate coordinate when it is free, run the bounded BFS, substitute the
`(nb_alive_snakes - 1) * board_diag_size` sentinel for a zero enemy-head
(enemy-tail) distance sum, and normalise. -/
def compute_stats_from (snake_id : Nat) (coord : Option Coordinate) (board : GameBoard) :
    Option StatsResult :=
  let st0 : BfsState :=
    { stats := { accessible_area := 0
                 num_accessible_food := 0
                 sum_dist_enemy_heads := 0
                 sum_dist_enemy_tails := 0
                 min_dist_to_food := board_diag_size
                 head_seen := false
                 tail_seen := false }
      added := fun _ => false
      queue := [] }
  match
    match coord with
    | none => some st0
    | some c =>
      match board.is_coord_free_or_food c with
      | none => none
      | some free =>
        if free then
          some { st0 with
                   queue := [(c.to_pos, 0)]
                   added := fun q => if q = c.to_pos then true else false }
        else some st0
  with
  | none => none
  | some st1 =>
    match bfs_run snake_id board NB_CELLS st1 with
    | none => none
    | some stf =>
      let raw := stf.stats
      let max_sum_dist_enemy : Int := ((board.nb_alive_snakes : Int) - 1) * board_diag_size
      let heads := if raw.sum_dist_enemy_heads = 0 then max_sum_dist_enemy
                   else raw.sum_dist_enemy_heads
      let tails := if raw.sum_dist_enemy_tails = 0 then max_sum_dist_enemy
                   else raw.sum_dist_enemy_tails
      some { raw := raw
             sub_heads := heads
             sub_tails := tails
             norm := { accessible_area :=
                         (raw.accessible_area : ℚ) / (board.nb_free_cells : ℚ)
                       num_accessible_food :=
                         (raw.num_accessible_food : ℚ) / (board.nb_free_cells : ℚ)
                       sum_dist_enemy_heads := (heads : ℚ) / (max_sum_dist_enemy : ℚ)
                       sum_dist_enemy_tails := (tails : ℚ) / (max_sum_dist_enemy : ℚ)
                       min_dist_to_food :=
                         (raw.min_dist_to_food : ℚ) / (board_diag_size : ℚ) } }

/-- The invariant linking the ghost flags to the sums: while no enemy head
(tail) has been encountered, the corresponding distance sum is zero. -/
def bfsUnseenZero (st : BfsState) : Prop :=
  (st.stats.head_seen = false → st.stats.sum_dist_enemy_heads = 0) ∧
  (st.stats.tail_seen = false → st.stats.sum_dist_enemy_tails = 0)

theorem bfs_visit_neighbor_unseen {snake_id : Nat} {board : GameBoard} {dist : Int}
    {st : BfsState} {coord : Coordinate} {st' : BfsState}
    (h : bfs_visit_neighbor snake_id board dist st coord = some st')
    (hP : bfsUnseenZero st) : bfsUnseenZero st' := by
  unfold bfs_visit_neighbor at h
  dsimp only at h
  split at h
  · split at h
    · exact Option.noConfusion h
    · rename_i t hget
      simp only [Option.some.injEq] at h
      subst h
      cases t
      case Empty => exact hP
      case Food => exact hP
      case Obstacle => exact hP
      case Wall => exact hP
      case SnakeHead i =>
        dsimp only
        split
        · exact ⟨fun hc => Bool.noConfusion hc, hP.2⟩
        · exact hP
      case SnakeBody i => exact hP
      case SnakeTail i =>
        dsimp only
        split
        · exact ⟨hP.1, fun hc => Bool.noConfusion hc⟩
        · exact hP
  · simp only [Option.some.injEq] at h
    subst h
    exact hP

/-- Generic preservation of a state predicate through an `Option`-valued
left fold. -/
theorem foldlM_option_preserve {α : Type} (P : BfsState → Prop)
    {f : BfsState → α → Option BfsState}
    (hf : ∀ st a st', f st a = some st' → P st → P st') :
    ∀ (l : List α) (st st' : BfsState),
      List.foldlM f st l = some st' → P st → P st' := by
  intro l
  induction l with
  | nil =>
    intro st st' h hP
    simp only [List.foldlM_nil, Option.pure_def, Option.some.injEq] at h
    subst h
    exact hP
  | cons a rest ih =>
    intro st st' h hP
    rw [List.foldlM_cons] at h
    cases hfa : f st a with
    | none =>
      rw [hfa] at h
      exact Option.noConfusion h
    | some s1 =>
      rw [hfa] at h
      exact ih s1 st' h (hf st a s1 hfa hP)

theorem bfs_process_unseen {snake_id : Nat} {board : GameBoard} {pos dist : Int}
    {st st' : BfsState}
    (h : bfs_process snake_id board pos dist st = some st')
    (hP : bfsUnseenZero st) : bfsUnseenZero st' := by
  unfold bfs_process at h
  split at h
  · exact Option.noConfusion h
  · rename_i t hget
    dsimp only at h
    refine foldlM_option_preserve bfsUnseenZero
      (fun st a st' hv hPv => bfs_visit_neighbor_unseen hv hPv) _ _ _ h ?_
    cases t <;> exact hP

theorem bfs_run_unseen {snake_id : Nat} {board : GameBoard} :
    ∀ (fuel : Nat) (st st' : BfsState),
      bfs_run snake_id board fuel st = some st' →
      bfsUnseenZero st → bfsUnseenZero st' := by
  intro fuel
  induction fuel with
  | zero =>
    intro st st' h hP
    unfold bfs_run at h
    simp only [Option.some.injEq] at h
    subst h
    exact hP
  | succ fuel ih =>
    intro st st' h hP
    unfold bfs_run at h
    split at h
    · simp only [Option.some.injEq] at h
      subst h
      exact hP
    · rename_i pos dist rest hq
      split at h
      · simp only [Option.some.injEq] at h
        subst h
        exact hP
      · split at h
        · exact Option.noConfusion h
        · rename_i st₁ hproc
          exact ih st₁ st' h (bfs_process_unseen hproc hP)

/-! ### Claim C8: the sentinel substitution in the BFS scoring. -/

/-- The claim C8 as the spec states it: the sentinel substitution happens if
and only if no enemy head (respectively tail) was encountered during the
search — exactly in that case the sum is replaced by
`(alive_snake_count - 1) * board_diagonal_length`, and when at least one
enemy head (tail) was encountered the accumulated distance sum is used
unchanged. -/
def ClaimC8 : Prop :=
  ∀ (snake_id : Nat) (coord : Option Coordinate) (b : GameBoard) (r : StatsResult),
    compute_stats_from snake_id coord b = some r →
    ((r.raw.head_seen = false →
        r.sub_heads = ((b.nb_alive_snakes : Int) - 1) * board_diag_size) ∧
     (r.raw.head_seen = true → r.sub_heads = r.raw.sum_dist_enemy_heads) ∧
     (r.raw.tail_seen = false →
        r.sub_tails = ((b.nb_alive_snakes : Int) - 1) * board_diag_size) ∧
     (r.raw.tail_seen = true → r.sub_tails = r.raw.sum_dist_enemy_tails))

/-- The C8 counterexample board: the BFS start cell (5,5) is walled in by
obstacles except for an enemy head (id 1) directly adjacent at (6,5), with
two snakes alive. -/
def bC8 : GameBoard :=
  { nb_free_cells := 507
    nb_alive_snakes := 2
    cells := fun p =>
      if p = 166 then Cell.SnakeHead 1
      else if p = 164 then Cell.Obstacle
      else if p = 133 then Cell.Obstacle
      else if p = 197 then Cell.Obstacle
      else Cell.Empty }

/-- C8 counterexample: searching from (5,5) on `bC8`, the enemy head at
(6,5) IS encountered — but at BFS distance 0, so it contributes 0 to the
sum, the sum stays 0, and the sentinel is substituted (36 instead of the
accumulated 0), contradicting "when at least one enemy head was
encountered, the accumulated distance sum is used unchanged". -/
theorem c8_counterexample : ¬ ClaimC8 := by
  intro h
  have hsome : (compute_stats_from 0 (some ⟨5, 5⟩) bC8).isSome = true := rfl
  obtain ⟨r, hr⟩ := Option.isSome_iff_exists.mp hsome
  have hfacts : ((compute_stats_from 0 (some ⟨5, 5⟩) bC8).map
      (fun r => (r.raw.head_seen, r.raw.sum_dist_enemy_heads, r.sub_heads))).getD
      (false, 7, 7) = (true, 0, 36) := rfl
  rw [hr] at hfacts
  simp only [Option.map_some', Option.getD_some, Prod.mk.injEq] at hfacts
  have hmain := (h 0 (some ⟨5, 5⟩) bC8 r hr).2.1 hfacts.1
  rw [hfacts.2.2, hfacts.2.1] at hmain
  norm_num at hmain

/-- C8 amended: the sentinel substitution is keyed on the accumulated sum
being exactly zero, not on whether an enemy was encountered: the head
(tail) sum is replaced by `(alive_snake_count - 1) * board_diagonal_length`
iff the accumulated sum is 0, which holds whenever no enemy head (tail) was
encountered — but also when enemies were encountered only at BFS distance
0; only a nonzero accumulated sum is used unchanged. -/
theorem c8_amended_sentinel_substitution :
    ∀ (snake_id : Nat) (coord : Option Coordinate) (b : GameBoard) (r : StatsResult),
      compute_stats_from snake_id coord b = some r →
      ((r.raw.head_seen = false → r.raw.sum_dist_enemy_heads = 0) ∧
       (r.raw.tail_seen = false → r.raw.sum_dist_enemy_tails = 0) ∧
       r.sub_heads = (if r.raw.sum_dist_enemy_heads = 0
         then ((b.nb_alive_snakes : Int) - 1) * board_diag_size
         else r.raw.sum_dist_enemy_heads) ∧
       r.sub_tails = (if r.raw.sum_dist_enemy_tails = 0
         then ((b.nb_alive_snakes : Int) - 1) * board_diag_size
         else r.raw.sum_dist_enemy_tails)) := by
  intro snake_id coord b r h
  unfold compute_stats_from at h
  dsimp only at h
  split at h
  · exact Option.noConfusion h
  · rename_i st1 hinit
    split at h
    · exact Option.noConfusion h
    · rename_i stf hrun
      have hP1 : bfsUnseenZero st1 := by
        split at hinit
        · simp only [Option.some.injEq] at hinit
          subst hinit
          exact ⟨fun _ => rfl, fun _ => rfl⟩
        · split at hinit
          · exact Option.noConfusion hinit
          · split at hinit <;>
              (simp only [Option.some.injEq] at hinit; subst hinit;
               exact ⟨fun _ => rfl, fun _ => rfl⟩)
      have hPf : bfsUnseenZero stf := bfs_run_unseen NB_CELLS st1 stf hrun hP1
      simp only [Option.some.injEq] at h
      subst h
      exact ⟨hPf.1, hPf.2, rfl, rfl⟩

/-- Witness for the amended C8 at a concrete input: a search that never
starts (no candidate coordinate) encounters nothing, its sums stay 0, and
both sentinel substitutions fire. -/
theorem c8_amended_sentinel_substitution_witness :
    ∃ r, compute_stats_from 0 none bC8 = some r ∧
      r.raw.sum_dist_enemy_heads = 0 ∧
      r.sub_heads = ((bC8.nb_alive_snakes : Int) - 1) * board_diag_size := by
  have hsome : (compute_stats_from 0 none bC8).isSome = true := rfl
  obtain ⟨r, hr⟩ := Option.isSome_iff_exists.mp hsome
  have hmain := c8_amended_sentinel_substitution 0 none bC8 r hr
  have hraw : ((compute_stats_from 0 none bC8).map
      (fun r => (r.raw.head_seen, r.raw.sum_dist_enemy_heads))).getD (true, 7) =
      (false, 0) := rfl
  rw [hr] at hraw
  simp only [Option.map_some', Option.getD_some, Prod.mk.injEq] at hraw
  refine ⟨r, hr, hraw.2, ?_⟩
  rw [hmain.2.2.1, hraw.2]
  simp

end GeneticSnake
